import Mathlib

/-!
Verification development for the adaptive terrain-tiling engine of
`swiss-terrain-3d`: the spatial quadtree (subdivision, balancing, stitching
masks), the stitching index-buffer generator, and the tile lifecycle
manager (tile cache, texture loading, disposal, async completion).

The TypeScript sources are shallowly embedded:
* JavaScript numbers are modelled as exact rationals `Frac` (a numerator /
  denominator pair of integers with positive denominator), so that every
  geometric comparison of the source (`===`, `<`, `>`) becomes an exact,
  decidable comparison.  `Frac.val` interprets a `Frac` in `ℚ`.
* Class state becomes explicit state passing; `async` completion becomes an
  explicit transition on the orchestrator state.
* The quadtree's in-place mutation (`splitNode` during the balance scans) is
  reified as a pure tree transformation; fixed-point `while` loops become
  fuel-indexed recursion with fuel large enough to provably reach the fixed
  point.
-/

/-- Exact rational number `n / d`.  Models a JavaScript number; all uses keep
`0 < d`.  Kept unnormalised so that every operation is a plain integer
computation. -/
structure Frac where
  n : ℤ
  d : ℤ
deriving DecidableEq

namespace Frac

/-- Positive denominator: the representation invariant. -/
def posDen (a : Frac) : Prop := 0 < a.d

instance (a : Frac) : Decidable a.posDen := inferInstanceAs (Decidable (_ < _))

/-- Embed an integer. -/
def ofInt (k : ℤ) : Frac := ⟨k, 1⟩

/-- Addition by cross multiplication. -/
protected def add (a b : Frac) : Frac := ⟨a.n * b.d + b.n * a.d, a.d * b.d⟩

/-- Subtraction by cross multiplication. -/
protected def sub (a b : Frac) : Frac := ⟨a.n * b.d - b.n * a.d, a.d * b.d⟩

/-- Multiplication. -/
protected def mul (a b : Frac) : Frac := ⟨a.n * b.n, a.d * b.d⟩

/-- Halving; models the `* 0.5` of `Box2.getCenter`. -/
def half (a : Frac) : Frac := ⟨a.n, a.d * 2⟩

/-- Strict order by cross multiplication (valid for positive denominators). -/
protected def lt (a b : Frac) : Prop := a.n * b.d < b.n * a.d

/-- Numeric equality by cross multiplication: this is the meaning of `===`
on JavaScript numbers. -/
def eqv (a b : Frac) : Prop := a.n * b.d = b.n * a.d

instance : Add Frac := ⟨Frac.add⟩
instance : Sub Frac := ⟨Frac.sub⟩
instance : Mul Frac := ⟨Frac.mul⟩
instance : LT Frac := ⟨Frac.lt⟩

instance (a b : Frac) : Decidable (a < b) :=
  inferInstanceAs (Decidable (a.n * b.d < b.n * a.d))

instance (a b : Frac) : Decidable (a.eqv b) :=
  inferInstanceAs (Decidable (a.n * b.d = b.n * a.d))

/-- Interpretation into `ℚ`. -/
def val (a : Frac) : ℚ := (a.n : ℚ) / (a.d : ℚ)

theorem val_lt {a b : Frac} (ha : a.posDen) (hb : b.posDen) :
    a < b ↔ a.val < b.val := by
  have ha' : (0 : ℚ) < (a.d : ℚ) := by exact_mod_cast ha
  have hb' : (0 : ℚ) < (b.d : ℚ) := by exact_mod_cast hb
  show a.n * b.d < b.n * a.d ↔ a.val < b.val
  rw [val, val, div_lt_div_iff₀ ha' hb']
  constructor
  · intro h; exact_mod_cast h
  · intro h; exact_mod_cast h

theorem val_eqv {a b : Frac} (ha : a.posDen) (hb : b.posDen) :
    a.eqv b ↔ a.val = b.val := by
  have ha' : ((a.d : ℚ)) ≠ 0 := Int.cast_ne_zero.mpr (ne_of_gt (show (0:ℤ) < a.d from ha))
  have hb' : ((b.d : ℚ)) ≠ 0 := Int.cast_ne_zero.mpr (ne_of_gt (show (0:ℤ) < b.d from hb))
  rw [eqv, val, val, div_eq_div_iff ha' hb']
  constructor
  · intro h; exact_mod_cast h
  · intro h; exact_mod_cast h

theorem posDen_add {a b : Frac} (ha : a.posDen) (hb : b.posDen) :
    (a + b).posDen := mul_pos ha hb

theorem posDen_sub {a b : Frac} (ha : a.posDen) (hb : b.posDen) :
    (a - b).posDen := mul_pos ha hb

theorem posDen_mul {a b : Frac} (ha : a.posDen) (hb : b.posDen) :
    (a * b).posDen := mul_pos ha hb

theorem posDen_half {a : Frac} (ha : a.posDen) : a.half.posDen := by
  have : (0 : ℤ) < 2 := by norm_num
  exact mul_pos ha this

theorem val_add {a b : Frac} (ha : a.posDen) (hb : b.posDen) :
    (a + b).val = a.val + b.val := by
  have ha' : ((a.d : ℚ)) ≠ 0 := Int.cast_ne_zero.mpr (ne_of_gt (show (0:ℤ) < a.d from ha))
  have hb' : ((b.d : ℚ)) ≠ 0 := Int.cast_ne_zero.mpr (ne_of_gt (show (0:ℤ) < b.d from hb))
  show ((a.n * b.d + b.n * a.d : ℤ) : ℚ) / ((a.d * b.d : ℤ) : ℚ) = _
  rw [val, val]
  push_cast
  field_simp

theorem val_sub {a b : Frac} (ha : a.posDen) (hb : b.posDen) :
    (a - b).val = a.val - b.val := by
  have ha' : ((a.d : ℚ)) ≠ 0 := Int.cast_ne_zero.mpr (ne_of_gt (show (0:ℤ) < a.d from ha))
  have hb' : ((b.d : ℚ)) ≠ 0 := Int.cast_ne_zero.mpr (ne_of_gt (show (0:ℤ) < b.d from hb))
  show ((a.n * b.d - b.n * a.d : ℤ) : ℚ) / ((a.d * b.d : ℤ) : ℚ) = _
  rw [val, val]
  push_cast
  field_simp
  ring

theorem val_mul {a b : Frac} (ha : a.posDen) (hb : b.posDen) :
    (a * b).val = a.val * b.val := by
  have ha' : ((a.d : ℚ)) ≠ 0 := Int.cast_ne_zero.mpr (ne_of_gt (show (0:ℤ) < a.d from ha))
  have hb' : ((b.d : ℚ)) ≠ 0 := Int.cast_ne_zero.mpr (ne_of_gt (show (0:ℤ) < b.d from hb))
  show ((a.n * b.n : ℤ) : ℚ) / ((a.d * b.d : ℤ) : ℚ) = _
  rw [val, val]
  push_cast
  field_simp

theorem val_half {a : Frac} (ha : a.posDen) : a.half.val = a.val / 2 := by
  have ha' : ((a.d : ℚ)) ≠ 0 := Int.cast_ne_zero.mpr (ne_of_gt (show (0:ℤ) < a.d from ha))
  show ((a.n : ℤ) : ℚ) / ((a.d * 2 : ℤ) : ℚ) = _
  rw [val]
  push_cast
  field_simp

end Frac

/-- 2D point / extent, as in `THREE.Vector2`. -/
structure Vec2 where
  x : Frac
  y : Frac
deriving DecidableEq

/-- All coordinates have positive denominators. -/
def Vec2.posDen (v : Vec2) : Prop := v.x.posDen ∧ v.y.posDen

instance (v : Vec2) : Decidable v.posDen := inferInstanceAs (Decidable (_ ∧ _))

/-- Axis-aligned rectangle, as in `THREE.Box2`. -/
structure Box2 where
  min : Vec2
  max : Vec2
deriving DecidableEq

namespace Box2

/-- Embeds `Box2.getCenter`: `(min + max) * 0.5`. -/
def getCenter (b : Box2) : Vec2 :=
  ⟨(b.min.x + b.max.x).half, (b.min.y + b.max.y).half⟩

/-- Embeds `Box2.getSize`: `max - min`. -/
def getSize (b : Box2) : Vec2 :=
  ⟨b.max.x - b.min.x, b.max.y - b.min.y⟩

/-- Representation invariant plus spec invariant `min < max` on both axes. -/
def valid (b : Box2) : Prop :=
  b.min.posDen ∧ b.max.posDen ∧ b.min.x < b.max.x ∧ b.min.y < b.max.y

instance (b : Box2) : Decidable b.valid :=
  inferInstanceAs (Decidable (_ ∧ _ ∧ _ ∧ _))

end Box2

/-! ## `IndexStitchingMode` (src/code/Utils/IndexStitchingMode.ts)

A numeric enum; composites are bitwise ORs of the four edge bits. -/

namespace IndexStitchingMode

def Full : ℕ := 0
def North : ℕ := 1
def East : ℕ := 2
def South : ℕ := 4
def West : ℕ := 8
def NorthEast : ℕ := North ||| East
def SouthEast : ℕ := South ||| East
def SouthWest : ℕ := South ||| West
def NorthWest : ℕ := North ||| West

end IndexStitchingMode

/-! ## `GeometryGenerator` (src/code/Utils/GeometryGenerator.ts)

Each logical quad of the tile grid is subdivided into a 2×2 micro-grid; the
per-quad helpers emit the index triples of the triangle fan around the quad's
center vertex `i`.  `gr` is the micro-grid resolution (`resolution * 2`) and
`(x, y)` the micro-grid coordinates of the quad's lower-left vertex. -/

namespace GeometryGenerator

/-- Vertex index of micro-grid position `(x, y)`: `y * (gridRes + 1) + x`. -/
def idxG (gr x y : ℕ) : ℕ := y * (gr + 1) + x

/-- Embeds `generateIndexBufferForStitchingModeNorthEdge`. -/
def northEdgeIndices (gr x y : ℕ) : List ℕ :=
  let a := idxG gr x y
  let b := idxG gr (x + 1) y
  let c := idxG gr (x + 2) y
  let h := idxG gr x (y + 1)
  let i := idxG gr (x + 1) (y + 1)
  let d := idxG gr (x + 2) (y + 1)
  let g := idxG gr x (y + 2)
  let e := idxG gr (x + 2) (y + 2)
  [a, b, i, b, c, i, c, d, i, d, e, i, e, g, i, g, h, i, h, a, i]

/-- Embeds `generateIndexBufferForStitchingModeWestEdge`. -/
def westEdgeIndices (gr x y : ℕ) : List ℕ :=
  let a := idxG gr x y
  let b := idxG gr (x + 1) y
  let c := idxG gr (x + 2) y
  let i := idxG gr (x + 1) (y + 1)
  let d := idxG gr (x + 2) (y + 1)
  let g := idxG gr x (y + 2)
  let f := idxG gr (x + 1) (y + 2)
  let e := idxG gr (x + 2) (y + 2)
  [a, b, i, b, c, i, c, d, i, d, e, i, e, f, i, f, g, i, g, a, i]

/-- Embeds `generateIndexBufferForStitchingModeEastEdge`. -/
def eastEdgeIndices (gr x y : ℕ) : List ℕ :=
  let a := idxG gr x y
  let b := idxG gr (x + 1) y
  let c := idxG gr (x + 2) y
  let h := idxG gr x (y + 1)
  let i := idxG gr (x + 1) (y + 1)
  let g := idxG gr x (y + 2)
  let f := idxG gr (x + 1) (y + 2)
  let e := idxG gr (x + 2) (y + 2)
  [a, b, i, b, c, i, c, e, i, e, f, i, f, g, i, g, h, i, h, a, i]

/-- Embeds `generateIndexBufferForStitchingModeSouthEdge`. -/
def southEdgeIndices (gr x y : ℕ) : List ℕ :=
  let a := idxG gr x y
  let c := idxG gr (x + 2) y
  let h := idxG gr x (y + 1)
  let i := idxG gr (x + 1) (y + 1)
  let d := idxG gr (x + 2) (y + 1)
  let g := idxG gr x (y + 2)
  let f := idxG gr (x + 1) (y + 2)
  let e := idxG gr (x + 2) (y + 2)
  [a, c, i, c, d, i, d, e, i, e, f, i, f, g, i, g, h, i, h, a, i]

/-- Embeds `generateIndexBufferForStitchingModeNorthWestCorner`. -/
def northWestCornerIndices (gr x y : ℕ) : List ℕ :=
  let a := idxG gr x y
  let b := idxG gr (x + 1) y
  let c := idxG gr (x + 2) y
  let i := idxG gr (x + 1) (y + 1)
  let d := idxG gr (x + 2) (y + 1)
  let g := idxG gr x (y + 2)
  let e := idxG gr (x + 2) (y + 2)
  [a, b, i, b, c, i, c, d, i, d, e, i, e, g, i, g, a, i]

/-- Embeds `generateIndexBufferForStitchingModeSouthEastCorner`. -/
def southEastCornerIndices (gr x y : ℕ) : List ℕ :=
  let a := idxG gr x y
  let c := idxG gr (x + 2) y
  let h := idxG gr x (y + 1)
  let i := idxG gr (x + 1) (y + 1)
  let g := idxG gr x (y + 2)
  let f := idxG gr (x + 1) (y + 2)
  let e := idxG gr (x + 2) (y + 2)
  [a, c, i, c, e, i, e, f, i, f, g, i, g, h, i, h, a, i]

/-- Embeds `generateIndexBufferForStitchingModeSouthWestCorner`. -/
def southWestCornerIndices (gr x y : ℕ) : List ℕ :=
  let a := idxG gr x y
  let c := idxG gr (x + 2) y
  let i := idxG gr (x + 1) (y + 1)
  let d := idxG gr (x + 2) (y + 1)
  let g := idxG gr x (y + 2)
  let f := idxG gr (x + 1) (y + 2)
  let e := idxG gr (x + 2) (y + 2)
  [a, c, i, c, d, i, d, e, i, e, f, i, f, g, i, g, a, i]

/-- Embeds `generateIndexBufferForStitchingModeFull`. -/
def fullIndices (gr x y : ℕ) : List ℕ :=
  let a := idxG gr x y
  let b := idxG gr (x + 1) y
  let c := idxG gr (x + 2) y
  let h := idxG gr x (y + 1)
  let i := idxG gr (x + 1) (y + 1)
  let d := idxG gr (x + 2) (y + 1)
  let g := idxG gr x (y + 2)
  let f := idxG gr (x + 1) (y + 2)
  let e := idxG gr (x + 2) (y + 2)
  [a, b, i, b, c, i, c, d, i, d, e, i, e, f, i, f, g, i, g, h, i, h, a, i]

/-- Embeds `generateIndexBufferForStitchingModeNorthEastCorner`. -/
def northEastCornerIndices (gr x y : ℕ) : List ℕ :=
  let a := idxG gr x y
  let b := idxG gr (x + 1) y
  let c := idxG gr (x + 2) y
  let h := idxG gr x (y + 1)
  let i := idxG gr (x + 1) (y + 1)
  let g := idxG gr x (y + 2)
  let e := idxG gr (x + 2) (y + 2)
  [a, b, i, b, c, i, c, e, i, e, g, i, g, h, i, h, a, i]

open IndexStitchingMode in
/-- The per-quad pattern selection of `generateIndexBufferForStitchingMode`:
the body of the double loop at the given quad position `(x, y)` (with the
same strict priority order: corners, then edges, then full). -/
def quadIndices (mode gr x y : ℕ) : List ℕ :=
  if mode = SouthWest ∧ x = 0 ∧ y = 0 then
    southWestCornerIndices gr x y
  else if mode = NorthEast ∧ x = gr - 2 ∧ y = gr - 2 then
    northEastCornerIndices gr x y
  else if mode = NorthWest ∧ x = 0 ∧ y = gr - 2 then
    northWestCornerIndices gr x y
  else if mode = SouthEast ∧ x = gr - 2 ∧ y = 0 then
    southEastCornerIndices gr x y
  else if (mode = North ∨ mode = NorthWest ∨ mode = NorthEast) ∧ y = gr - 2 then
    northEdgeIndices gr x y
  else if (mode = West ∨ mode = SouthWest ∨ mode = NorthWest) ∧ x = 0 then
    westEdgeIndices gr x y
  else if (mode = East ∨ mode = NorthEast ∨ mode = SouthEast) ∧ x = gr - 2 then
    eastEdgeIndices gr x y
  else if (mode = South ∨ mode = SouthWest ∨ mode = SouthEast) ∧ y = 0 then
    southEdgeIndices gr x y
  else
    fullIndices gr x y

/-- Embeds `generateIndexBufferForStitchingMode`: iterate the quads (`y` outer, `x`
inner, both stepping by 2 over the `resolution * 2` micro-grid) and emit the
selected pattern for each. -/
def generateIndexBufferForStitchingMode (mode resolution : ℕ) : List ℕ :=
  let gr := resolution * 2
  (List.range resolution).flatMap fun qy =>
    (List.range resolution).flatMap fun qx =>
      quadIndices mode gr (2 * qx) (2 * qy)

open IndexStitchingMode in
/-- The nine enum members, in declaration order — the keys over which
`intitializeIndexBufferForStitchingModes` iterates. -/
def allStitchingModes : List ℕ :=
  [Full, North, East, South, West, NorthEast, SouthEast, SouthWest, NorthWest]

/-- Embeds `intitializeIndexBufferForStitchingModes` (spelling as in the source):
the static map from stitching mode to its index buffer, built once for the
nine enum members. -/
def intitializeIndexBufferForStitchingModes (tileSize : ℕ) : List (ℕ × List ℕ) :=
  allStitchingModes.map fun m => (m, generateIndexBufferForStitchingMode m tileSize)

/-- Embeds `getIndexBufferForStitchingMode`: `Map.get`, `none` when the mode is not
a key of the map. -/
def getIndexBufferForStitchingMode (tbl : List (ℕ × List ℕ)) (mode : ℕ) :
    Option (List ℕ) :=
  (tbl.find? fun e => e.1 == mode).map Prod.snd

end GeometryGenerator

/-! ## `QuadTree` (src/code/quadtree/QuadTree.ts, worker revision)

`QuadTreeNode` carries bounds, level, center and size; `id` (a pure function
of level and center) and the output stitching mask are kept outside the node
record here — the mask is returned by `updateStitchingModeForNode`.  The
source tree is a mutable record with 0 or exactly 4 children
(`createChildNodes` always builds 4), embedded as an inductive with a `leaf`
and a 4-child `node` constructor. -/

/-- The per-node data of `QuadTreeNode`. -/
structure NodeData where
  bounds : Box2
  level : ℕ
  center : Vec2
  size : Vec2
deriving DecidableEq

/-- Node construction as done throughout the source: center and size are
derived from the bounds via `getCenter` / `getSize`. -/
def mkNodeData (b : Box2) (level : ℕ) : NodeData :=
  ⟨b, level, b.getCenter, b.getSize⟩

/-- A quadtree: leaves, or exactly four children. -/
inductive QNode where
  | leaf (data : NodeData)
  | node (data : NodeData) (c0 c1 c2 c3 : QNode)
deriving DecidableEq

namespace QuadTree

/-- The data record of the root of a subtree. -/
def QNode.data : QNode → NodeData
  | .leaf d => d
  | .node d _ _ _ _ => d

/-- Embeds `getChildrenRecursive`: the leaf nodes of the tree, left to right. -/
def getChildrenRecursive : QNode → List NodeData
  | .leaf d => [d]
  | .node _ c0 c1 c2 c3 =>
      getChildrenRecursive c0 ++ getChildrenRecursive c1 ++
      getChildrenRecursive c2 ++ getChildrenRecursive c3

/-- All node records of the tree (root included). -/
def allNodeList : QNode → List QNode
  | .leaf d => [.leaf d]
  | .node d c0 c1 c2 c3 =>
      .node d c0 c1 c2 c3 ::
      (allNodeList c0 ++ allNodeList c1 ++ allNodeList c2 ++ allNodeList c3)

/-- Embeds `createChildNodes`: quadrisect the bounds through the midpoint, in source
order bottom-left, bottom-right, top-left, top-right; each child gets
`level + 1` and derived center/size. -/
def createChildNodes (d : NodeData) : NodeData × NodeData × NodeData × NodeData :=
  let midPoint := d.bounds.getCenter
  let bottomLeft : Box2 := ⟨d.bounds.min, midPoint⟩
  let bottomRight : Box2 := ⟨⟨midPoint.x, d.bounds.min.y⟩, ⟨d.bounds.max.x, midPoint.y⟩⟩
  let topLeft : Box2 := ⟨⟨d.bounds.min.x, midPoint.y⟩, ⟨midPoint.x, d.bounds.max.y⟩⟩
  let topRight : Box2 := ⟨midPoint, d.bounds.max⟩
  (mkNodeData bottomLeft (d.level + 1), mkNodeData bottomRight (d.level + 1),
   mkNodeData topLeft (d.level + 1), mkNodeData topRight (d.level + 1))

/-- Squared Euclidean distance; `center.distanceTo(position)` is its square
root. -/
def distSq (a b : Vec2) : Frac :=
  (a.x - b.x) * (a.x - b.x) + (a.y - b.y) * (a.y - b.y)

/-- The subdivision predicate of `insertPositionRecursive`:
`distanceToNode < node.size.x * distanceFactor && node.level < maxDepth` with
`distanceFactor = 2`.  Since `distanceToNode = sqrt (distSq center p)` and
`sqrt q < t ↔ 0 < t ∧ q < t * t` (theorem `sqrt_lt_iff_frac` below), the
comparison is expressed exactly on the squares. -/
def shouldSplit (maxDepth : ℕ) (p : Vec2) (d : NodeData) : Prop :=
  (Frac.ofInt 0 < d.size.x * Frac.ofInt 2 ∧
    distSq d.center p < (d.size.x * Frac.ofInt 2) * (d.size.x * Frac.ofInt 2)) ∧
  d.level < maxDepth

instance (maxDepth : ℕ) (p : Vec2) (d : NodeData) :
    Decidable (shouldSplit maxDepth p d) :=
  inferInstanceAs (Decidable ((_ ∧ _) ∧ _))

/-- Embeds `insertPositionRecursive`: split when the predicate holds, then recurse
into the four fresh children.  `insertPosition` clears the children first, so
the recursion only ever descends into children it just created; the `fuel`
argument (always called with at least `maxDepth + 1 - level`) only bounds the
recursion depth and is never exhausted because a split requires
`level < maxDepth`. -/
def insertPositionRecursive (maxDepth : ℕ) (p : Vec2) : ℕ → NodeData → QNode
  | 0, d => .leaf d
  | fuel + 1, d =>
      if shouldSplit maxDepth p d then
        match createChildNodes d with
        | (c0, c1, c2, c3) =>
            .node d (insertPositionRecursive maxDepth p fuel c0)
              (insertPositionRecursive maxDepth p fuel c1)
              (insertPositionRecursive maxDepth p fuel c2)
              (insertPositionRecursive maxDepth p fuel c3)
      else .leaf d

/-- Embeds `areEdgeNeighbors`: share a vertical or horizontal boundary line with
strictly positive overlap on the other axis. -/
def areEdgeNeighbors (a b : Box2) : Prop :=
  ((a.max.x.eqv b.min.x ∨ a.min.x.eqv b.max.x) ∧
    a.min.y < b.max.y ∧ b.min.y < a.max.y) ∨
  ((a.max.y.eqv b.min.y ∨ a.min.y.eqv b.max.y) ∧
    a.min.x < b.max.x ∧ b.min.x < a.max.x)

instance (a b : Box2) : Decidable (areEdgeNeighbors a b) :=
  inferInstanceAs (Decidable (_ ∨ _))

/-- A leaf the balance scan decides to split: it is the strictly coarser
member of some edge-adjacent pair whose level difference exceeds 1
(`Math.abs(a.level - b.level) > 1`, coarser = smaller level), and
`splitNode` only acts below `maxDepth`. -/
def needsSplit (maxDepth : ℕ) (ls : List NodeData) (d : NodeData) : Prop :=
  d.level < maxDepth ∧
    ∃ o ∈ ls, areEdgeNeighbors d.bounds o.bounds ∧
      1 < ((d.level : ℤ) - (o.level : ℤ)).natAbs ∧ d.level < o.level

instance (maxDepth : ℕ) (ls : List NodeData) (d : NodeData) :
    Decidable (needsSplit maxDepth ls d) :=
  inferInstanceAs (Decidable (_ ∧ _))

/-- The effect of one balance scan over the snapshot `ls` of current leaves:
every leaf selected by the scan is split once (`splitNode` refuses a second
split of the same node within a scan, so each selected leaf is split exactly
once, and which leaves are selected depends only on the snapshot). -/
def splitLeaves (maxDepth : ℕ) (ls : List NodeData) : QNode → QNode
  | .leaf d =>
      if needsSplit maxDepth ls d then
        match createChildNodes d with
        | (c0, c1, c2, c3) => .node d (.leaf c0) (.leaf c1) (.leaf c2) (.leaf c3)
      else .leaf d
  | .node d c0 c1 c2 c3 =>
      .node d (splitLeaves maxDepth ls c0) (splitLeaves maxDepth ls c1)
        (splitLeaves maxDepth ls c2) (splitLeaves maxDepth ls c3)

/-- Embeds `balance`: rescan the full current leaf set and split, until a scan makes
no change (`do { ... } while (changed)`).  The `while` of the source is
unbounded; here the fuel `4 ^ maxDepth` is an upper bound on the number of
changing scans, shown sufficient below (`balance_fixed_point`): the returned
tree is a genuine fixed point, i.e. exactly the loop's limit. -/
def balance (maxDepth : ℕ) : ℕ → QNode → QNode
  | 0, t => t
  | fuel + 1, t =>
      let ls := getChildrenRecursive t
      if ∃ d ∈ ls, needsSplit maxDepth ls d then
        balance maxDepth fuel (splitLeaves maxDepth ls t)
      else t

/-- Embeds `insertPosition`: clear the children (the tree is rebuilt from the root
record), subdivide toward the position, then balance to the fixed point. -/
def insertPosition (bounds : Box2) (maxDepth : ℕ) (p : Vec2) : QNode :=
  balance maxDepth (4 ^ maxDepth)
    (insertPositionRecursive maxDepth p (maxDepth + 1) (mkNodeData bounds 0))

/-- Embeds `touchesSouthEdge` test of `updateStitchingModeForNode`. -/
def touchesSouthEdge (my other : Box2) : Prop :=
  my.max.y.eqv other.min.y ∧ my.min.x < other.max.x ∧ other.min.x < my.max.x

/-- Embeds `touchesNorthEdge` test of `updateStitchingModeForNode`. -/
def touchesNorthEdge (my other : Box2) : Prop :=
  my.min.y.eqv other.max.y ∧ my.min.x < other.max.x ∧ other.min.x < my.max.x

/-- Embeds `touchesWestEdge` test of `updateStitchingModeForNode`. -/
def touchesWestEdge (my other : Box2) : Prop :=
  my.min.x.eqv other.max.x ∧ my.min.y < other.max.y ∧ other.min.y < my.max.y

/-- Embeds `touchesEastEdge` test of `updateStitchingModeForNode`. -/
def touchesEastEdge (my other : Box2) : Prop :=
  my.max.x.eqv other.min.x ∧ my.min.y < other.max.y ∧ other.min.y < my.max.y

instance (a b : Box2) : Decidable (touchesSouthEdge a b) :=
  inferInstanceAs (Decidable (_ ∧ _))

instance (a b : Box2) : Decidable (touchesNorthEdge a b) :=
  inferInstanceAs (Decidable (_ ∧ _))

instance (a b : Box2) : Decidable (touchesWestEdge a b) :=
  inferInstanceAs (Decidable (_ ∧ _))

instance (a b : Box2) : Decidable (touchesEastEdge a b) :=
  inferInstanceAs (Decidable (_ ∧ _))

open IndexStitchingMode in
/-- The contribution of one `other` node to the mask accumulated by
`updateStitchingModeForNode`: skip nodes that are not strictly coarser
(this also subsumes the `other === node` self-skip, since the node itself
has equal level), skip non-neighbors, then OR in the bit of the first
matching edge test (`if / else if` chain in source order). -/
def stitchContribution (node other : NodeData) : ℕ :=
  if other.level ≥ node.level then 0
  else if ¬ areEdgeNeighbors node.bounds other.bounds then 0
  else if touchesSouthEdge node.bounds other.bounds then South
  else if touchesNorthEdge node.bounds other.bounds then North
  else if touchesWestEdge node.bounds other.bounds then West
  else if touchesEastEdge node.bounds other.bounds then East
  else 0

/-- Embeds `updateStitchingModeForNode`: fold the contributions of all nodes into a
mask starting from `Full = 0`.  The source stores the result back into the
node record; here it is returned. -/
def updateStitchingModeForNode (node : NodeData) (allNodes : List NodeData) : ℕ :=
  allNodes.foldl (fun mode other => mode ||| stitchContribution node other)
    IndexStitchingMode.Full

end QuadTree

/-! ## `TerrainTile` (src/code/terrain/TerrainTile.ts)

GPU-side objects (geometries, materials, textures) are modelled as integer
handles; `GpuResources` records which handles have had `dispose()` called on
them.  The tile's nullable fields are `Option` handles. -/

/-- Key of a tile: the source builds the id string
`lod<level>_x<x>_z<z>` from exactly these three components. -/
structure TileKey where
  level : ℕ
  x : Frac
  y : Frac
deriving DecidableEq

/-- Renderable tile state; `anistropy` keeps the source's spelling. -/
structure TerrainTile where
  id : TileKey
  mesh : Option ℕ := none
  lineMesh : Option ℕ := none
  material : Option ℕ := none
  boxHelper : Option ℕ := none
  demTexture : Option ℕ := none
  dopTexture : Option ℕ := none
  anistropy : ℕ := 0
  resolution : ℕ := 0
  wireframe : Bool := false
  shouldUseDemTexture : Bool := true
deriving DecidableEq

/-- Disposal ledger for GPU-side objects. -/
structure GpuResources where
  disposedGeometries : List ℕ := []
  disposedMaterials : List ℕ := []
  disposedTextures : List ℕ := []
deriving DecidableEq

namespace TerrainTile

/-- Embeds `dispose`: guarded, in source order — the mesh geometry, the line-mesh
geometry, the material, the dem texture, and the dop texture are each
disposed when present (the box helper and the scene-graph removals do not
touch GPU resources). -/
def dispose (t : TerrainTile) (h : GpuResources) : GpuResources :=
  let h := match t.mesh with
    | some g => { h with disposedGeometries := h.disposedGeometries ++ [g] }
    | none => h
  let h := match t.lineMesh with
    | some g => { h with disposedGeometries := h.disposedGeometries ++ [g] }
    | none => h
  let h := match t.material with
    | some m => { h with disposedMaterials := h.disposedMaterials ++ [m] }
    | none => h
  let h := match t.demTexture with
    | some tex => { h with disposedTextures := h.disposedTextures ++ [tex] }
    | none => h
  let h := match t.dopTexture with
    | some tex => { h with disposedTextures := h.disposedTextures ++ [tex] }
    | none => h
  h

end TerrainTile

/-- Mesh-facing state touched by
`TerrainTile.updateStitchingModeDependentResources`: the current stitching
mask, the color-by-mode toggle, and the mesh's index buffer (`none` models
`geometry.index === undefined`). -/
structure TileRenderState where
  stitchingMode : ℕ
  enableStitchingColor : Bool
  tintIsWhite : Bool := true
  meshIndex : Option (List ℕ) := none
deriving DecidableEq

namespace TerrainTile

/-- Embeds `updateStitchingModeDependentResources`: retint (white for `Full` or when
mode coloring is off), then `setIndex(getIndexBufferForStitchingMode(mode)!)`
— the non-null assertion is erased at runtime, so a missing table entry sets
the mesh index to `undefined` (`none`). -/
def updateStitchingModeDependentResources
    (tbl : List (ℕ × List ℕ)) (t : TileRenderState) : TileRenderState :=
  { t with
    tintIsWhite :=
      t.stitchingMode = IndexStitchingMode.Full ∨ t.enableStitchingColor = false
    meshIndex := GeometryGenerator.getIndexBufferForStitchingMode tbl t.stitchingMode }

end TerrainTile

/-! ## `TerrainTileManager` (src/code/terrain/TerrainTileManager.ts)

`App.instance.textureLoader` is the only external service: every
`loadAsync(path)` call fetches `path` and allocates a fresh `THREE.Texture`
object, modelled by a fresh integer handle and an append-only load log. -/

/-- Texture loader state: next fresh handle and the log of performed loads. -/
structure LoaderState where
  nextHandle : ℕ := 0
  loadLog : List String := []
deriving DecidableEq

/-- Embeds `textureLoader.loadAsync`: fetch the path, allocate a fresh texture. -/
def loadAsync (st : LoaderState) (path : String) : ℕ × LoaderState :=
  (st.nextHandle, ⟨st.nextHandle + 1, st.loadLog ++ [path]⟩)

/-- One entry of the pre-parsed terrain metadata catalog. -/
structure TerrainLevelMetadata where
  level : ℕ
  centerX : Frac
  centerY : Frac
  dopImagePath : String
  demImagePath : String
deriving DecidableEq

namespace TerrainTileManager

/-- Embeds `getTileInfoForNode`: linear filter of the catalog by level and exact
center match (`===` on numbers), taking the first hit (`tileInfo[0]`,
`undefined` on no hit). -/
def getTileInfoForNode (metadata : List TerrainLevelMetadata) (node : NodeData) :
    Option TerrainLevelMetadata :=
  (metadata.filter fun t =>
    t.level == node.level && decide (t.centerX.eqv node.center.x) &&
      decide (t.centerY.eqv node.center.y)).head?

/-- Embeds `createTerrainTile`: loads the dop texture, then the dem texture (one
`loadAsync` each, unconditionally), and builds the tile from the given
parameters. -/
def createTerrainTile (loader : LoaderState) (id : TileKey)
    (dopImagePath demImagePath : String) (anisotropy resolution : ℕ)
    (wireframe useDemTexture : Bool) : TerrainTile × LoaderState :=
  let (dopTexture, loader) := loadAsync loader dopImagePath
  let (demTexture, loader) := loadAsync loader demImagePath
  ({ id := id
     demTexture := some demTexture
     dopTexture := some dopTexture
     anistropy := anisotropy
     resolution := resolution
     wireframe := wireframe
     shouldUseDemTexture := useDemTexture }, loader)

/-- Embeds `requestTerrainTileForNode`: key the cache by
`generateTileId(node.level, node.center.x, node.center.y)`; on a cache hit
return the cached tile as is (before any metadata lookup or load); otherwise
resolve metadata (`none` on a missing catalog entry), build the tile, and
cache it. -/
def requestTerrainTileForNode (cache : List (TileKey × TerrainTile))
    (loader : LoaderState) (metadata : List TerrainLevelMetadata)
    (node : NodeData) (anisotropy resolution : ℕ)
    (wireframe shouldUseDemTexture : Bool) :
    Option TerrainTile × List (TileKey × TerrainTile) × LoaderState :=
  let tileId : TileKey := ⟨node.level, node.center.x, node.center.y⟩
  match (cache.find? fun e => e.1 == tileId).map Prod.snd with
  | some tile => (some tile, cache, loader)
  | none =>
      match getTileInfoForNode metadata node with
      | none => (none, cache, loader)
      | some info =>
          let (tile, loader) := createTerrainTile loader tileId
            info.dopImagePath info.demImagePath anisotropy resolution
            wireframe shouldUseDemTexture
          (some tile, cache ++ [(tileId, tile)], loader)

end TerrainTileManager

/-! ## `Terrain.updateFromQuadTreeNodes` (src/code/terrain/Terrain.ts)

Tiles are referred to by their id.  `currentLeafIds` is a specification-only
record of the latest quadtree snapshot handed to the orchestrator (the source
keeps no such field — which is precisely why its completion handler cannot
consult it). -/

/-- Orchestrator state for the per-tick diff. -/
structure TerrainState where
  terrainTiles : List String := []
  loadingTileIds : List String := []
  sceneChildren : List String := []
  currentLeafIds : List String := []
deriving DecidableEq

namespace Terrain

/-- The removal scan: `for (const tile of this._terrainTiles)` with
`splice(indexOf(tile), 1)` on stale tiles.  Removing the current element
advances past its successor, so the element directly after a removed one is
kept without being examined this tick (standard iterate-while-splicing
semantics). -/
def removeStaleTiles (nodes : List String) : List String → List String
  | [] => []
  | t :: rest =>
      if t ∈ nodes then t :: removeStaleTiles nodes rest
      else
        match rest with
        | [] => []
        | u :: rest2 => u :: removeStaleTiles nodes rest2

/-- The request scan over the snapshot: tiles already active are only
tweak-synced (no lifecycle change); ids already in flight are skipped;
remaining ids are marked in flight and a `requestTerrainTileForNode` is
issued for them.  Returns the in-flight set and the issued requests. -/
def issueRequests (tiles : List String) :
    List String → List String → List String × List String
  | loading, [] => (loading, [])
  | loading, id2 :: rest =>
      if id2 ∈ tiles then issueRequests tiles loading rest
      else if id2 ∈ loading then issueRequests tiles loading rest
      else
        let (loading2, reqs) := issueRequests tiles (loading ++ [id2]) rest
        (loading2, id2 :: reqs)

/-- Embeds `updateFromQuadTreeNodes`: remove active tiles whose id left the
snapshot (dropping them from the scene), then issue requests for the new
ids.  Returns the new state plus the ids requested this tick. -/
def updateFromQuadTreeNodes (s : TerrainState) (nodes : List String) :
    TerrainState × List String :=
  let tiles := removeStaleTiles nodes s.terrainTiles
  let scene := s.sceneChildren.filter fun c => c ∈ tiles
  let (loading, reqs) := issueRequests tiles s.loadingTileIds nodes
  ({ terrainTiles := tiles, loadingTileIds := loading, sceneChildren := scene,
     currentLeafIds := nodes }, reqs)

/-- The completion handler attached to `requestTerrainTileForNode(...).then`:
drop the id from the in-flight set; when the request resolved with no tile,
log and return; otherwise push the tile into the active list and add it to
the scene.  (No part of the handler consults the current leaf snapshot.) -/
def completeTileRequest (s : TerrainState) (nodeId : String)
    (tile : Option String) : TerrainState :=
  let s1 := { s with loadingTileIds := s.loadingTileIds.erase nodeId }
  match tile with
  | none => s1
  | some t =>
      { s1 with terrainTiles := s1.terrainTiles ++ [t],
                sceneChildren := s1.sceneChildren ++ [t] }

end Terrain

/-! ## Supporting lemmas -/

theorem Frac.val_ofInt (k : ℤ) : (Frac.ofInt k).val = (k : ℚ) := by
  simp [Frac.ofInt, Frac.val]

theorem Frac.posDen_ofInt (k : ℤ) : (Frac.ofInt k).posDen := by
  simp [Frac.ofInt, Frac.posDen]

/-- Embeds `sqrt q < t` is exactly `0 < t ∧ q < t * t`: the square-free form of the
subdivision comparison. -/
theorem sqrt_lt_iff_frac (x t : ℝ) : Real.sqrt x < t ↔ 0 < t ∧ x < t * t := by
  constructor
  · intro h
    have ht : 0 < t := lt_of_le_of_lt (Real.sqrt_nonneg x) h
    refine ⟨ht, ?_⟩
    have := (Real.sqrt_lt' ht).mp h
    nlinarith [this]
  · rintro ⟨ht, hx⟩
    exact (Real.sqrt_lt' ht).mpr (by nlinarith [hx])

namespace QuadTree

theorem posDen_distSq {a b : Vec2} (ha : a.posDen) (hb : b.posDen) :
    (distSq a b).posDen := by
  obtain ⟨hax, hay⟩ := ha
  obtain ⟨hbx, hby⟩ := hb
  exact Frac.posDen_add
    (Frac.posDen_mul (Frac.posDen_sub hax hbx) (Frac.posDen_sub hax hbx))
    (Frac.posDen_mul (Frac.posDen_sub hay hby) (Frac.posDen_sub hay hby))

theorem val_distSq {a b : Vec2} (ha : a.posDen) (hb : b.posDen) :
    (distSq a b).val =
      (a.x.val - b.x.val) * (a.x.val - b.x.val) +
        (a.y.val - b.y.val) * (a.y.val - b.y.val) := by
  obtain ⟨hax, hay⟩ := ha
  obtain ⟨hbx, hby⟩ := hb
  have hx := Frac.posDen_sub hax hbx
  have hy := Frac.posDen_sub hay hby
  rw [distSq, Frac.val_add (Frac.posDen_mul hx hx) (Frac.posDen_mul hy hy),
    Frac.val_mul hx hx, Frac.val_mul hy hy, Frac.val_sub hax hbx,
    Frac.val_sub hay hby]

theorem val_distSq_nonneg {a b : Vec2} (ha : a.posDen) (hb : b.posDen) :
    0 ≤ (distSq a b).val := by
  rw [val_distSq ha hb]
  nlinarith [sq_nonneg (a.x.val - b.x.val), sq_nonneg (a.y.val - b.y.val)]

/-- The subdivision predicate coincides with the source's comparison of the
Euclidean distance against `size.x * 2` (together with the depth guard). -/
theorem shouldSplit_iff_dist (m : ℕ) (p : Vec2) (d : NodeData)
    (hp : p.posDen) (hc : d.center.posDen) (hs : d.size.x.posDen) :
    shouldSplit m p d ↔
      (Real.sqrt ((distSq d.center p).val : ℝ) < (d.size.x.val : ℝ) * 2 ∧
        d.level < m) := by
  have h2 : (Frac.ofInt 2).posDen := Frac.posDen_ofInt 2
  have hsx2 : (d.size.x * Frac.ofInt 2).posDen := Frac.posDen_mul hs h2
  have hds : (distSq d.center p).posDen := posDen_distSq hc hp
  have hval : (d.size.x * Frac.ofInt 2).val = d.size.x.val * 2 := by
    rw [Frac.val_mul hs h2, Frac.val_ofInt]; norm_num
  rw [shouldSplit, sqrt_lt_iff_frac]
  constructor
  · rintro ⟨⟨hpos, hlt⟩, hlevel⟩
    have hpos' := (Frac.val_lt (Frac.posDen_ofInt 0) hsx2).mp hpos
    rw [Frac.val_ofInt, hval] at hpos'
    have hlt' := (Frac.val_lt hds (Frac.posDen_mul hsx2 hsx2)).mp hlt
    rw [Frac.val_mul hsx2 hsx2, hval] at hlt'
    refine ⟨⟨?_, ?_⟩, hlevel⟩
    · exact_mod_cast hpos'
    · exact_mod_cast hlt'
  · rintro ⟨⟨hpos, hlt⟩, hlevel⟩
    have hpos' : (0 : ℚ) < d.size.x.val * 2 := by exact_mod_cast hpos
    have hlt' : (distSq d.center p).val <
        (d.size.x.val * 2) * (d.size.x.val * 2) := by exact_mod_cast hlt
    refine ⟨⟨?_, ?_⟩, hlevel⟩
    · exact (Frac.val_lt (Frac.posDen_ofInt 0) hsx2).mpr
        (by rw [Frac.val_ofInt, hval]; exact_mod_cast hpos')
    · exact (Frac.val_lt hds (Frac.posDen_mul hsx2 hsx2)).mpr
        (by rw [Frac.val_mul hsx2 hsx2, hval]; exact hlt')

end QuadTree

namespace QuadTree

/-- One unfolding of the subdivision recursion in the split case. -/
theorem insertPositionRecursive_succ_pos {m : ℕ} {p : Vec2} {d : NodeData}
    {fuel : ℕ} (hS : shouldSplit m p d) :
    insertPositionRecursive m p (fuel + 1) d =
      QNode.node d (insertPositionRecursive m p fuel (createChildNodes d).1)
        (insertPositionRecursive m p fuel (createChildNodes d).2.1)
        (insertPositionRecursive m p fuel (createChildNodes d).2.2.1)
        (insertPositionRecursive m p fuel (createChildNodes d).2.2.2) := by
  simp only [insertPositionRecursive]
  rw [if_pos hS]

/-- One unfolding of the subdivision recursion in the no-split case. -/
theorem insertPositionRecursive_succ_neg {m : ℕ} {p : Vec2} {d : NodeData}
    {fuel : ℕ} (hS : ¬ shouldSplit m p d) :
    insertPositionRecursive m p (fuel + 1) d = QNode.leaf d := by
  simp only [insertPositionRecursive]
  rw [if_neg hS]

end QuadTree

open QuadTree in
/-- C4.  During the recursive subdivision pass (before balancing), a node is
split into exactly 4 children iff
`distance(node.center, viewpoint) < node.size.x * K` with `K = 2` and
`node.level < maxDepth`; after a split the recursion continues into the four
children. -/
theorem subdivision_split_iff (m : ℕ) (p : Vec2) (d : NodeData) (fuel : ℕ)
    (hp : p.posDen) (hc : d.center.posDen) (hs : d.size.x.posDen) :
    ((∃ c0 c1 c2 c3,
        insertPositionRecursive m p (fuel + 1) d = QNode.node d c0 c1 c2 c3) ↔
      (Real.sqrt ((distSq d.center p).val : ℝ) < (d.size.x.val : ℝ) * 2 ∧
        d.level < m)) ∧
    ((Real.sqrt ((distSq d.center p).val : ℝ) < (d.size.x.val : ℝ) * 2 ∧
        d.level < m) →
      insertPositionRecursive m p (fuel + 1) d =
        QNode.node d (insertPositionRecursive m p fuel (createChildNodes d).1)
          (insertPositionRecursive m p fuel (createChildNodes d).2.1)
          (insertPositionRecursive m p fuel (createChildNodes d).2.2.1)
          (insertPositionRecursive m p fuel (createChildNodes d).2.2.2)) := by
  have hiff := shouldSplit_iff_dist m p d hp hc hs
  by_cases hS : shouldSplit m p d
  · refine ⟨⟨fun _ => hiff.mp hS, fun _ => ?_⟩,
      fun _ => insertPositionRecursive_succ_pos hS⟩
    exact ⟨_, _, _, _, insertPositionRecursive_succ_pos hS⟩
  · refine ⟨⟨?_, fun h => absurd (hiff.mpr h) hS⟩,
      fun h => absurd (hiff.mpr h) hS⟩
    rintro ⟨c0, c1, c2, c3, h⟩
    rw [insertPositionRecursive_succ_neg hS] at h
    exact absurd h (by simp)

open QuadTree in
/-- Witness for C4 at a concrete input: the unit-level root of a
`(-1,-1) – (1,1)` square with the viewpoint at its center splits. -/
theorem subdivision_split_iff_witness :
    ((⟨⟨1, 1⟩, ⟨1, 1⟩⟩ : Vec2).posDen ∧
      (mkNodeData ⟨⟨⟨-1, 1⟩, ⟨-1, 1⟩⟩, ⟨⟨1, 1⟩, ⟨1, 1⟩⟩⟩ 0).center.posDen ∧
      (mkNodeData ⟨⟨⟨-1, 1⟩, ⟨-1, 1⟩⟩, ⟨⟨1, 1⟩, ⟨1, 1⟩⟩⟩ 0).size.x.posDen) ∧
    (((∃ c0 c1 c2 c3,
        insertPositionRecursive 1 ⟨⟨1, 1⟩, ⟨1, 1⟩⟩ (0 + 1)
            (mkNodeData ⟨⟨⟨-1, 1⟩, ⟨-1, 1⟩⟩, ⟨⟨1, 1⟩, ⟨1, 1⟩⟩⟩ 0) =
          QNode.node (mkNodeData ⟨⟨⟨-1, 1⟩, ⟨-1, 1⟩⟩, ⟨⟨1, 1⟩, ⟨1, 1⟩⟩⟩ 0)
            c0 c1 c2 c3) ↔
      (Real.sqrt
          ((distSq (mkNodeData ⟨⟨⟨-1, 1⟩, ⟨-1, 1⟩⟩, ⟨⟨1, 1⟩, ⟨1, 1⟩⟩⟩ 0).center
              ⟨⟨1, 1⟩, ⟨1, 1⟩⟩).val : ℝ) <
          ((mkNodeData ⟨⟨⟨-1, 1⟩, ⟨-1, 1⟩⟩, ⟨⟨1, 1⟩, ⟨1, 1⟩⟩⟩ 0).size.x.val : ℝ) * 2 ∧
        (mkNodeData ⟨⟨⟨-1, 1⟩, ⟨-1, 1⟩⟩, ⟨⟨1, 1⟩, ⟨1, 1⟩⟩⟩ 0).level < 1)) ∧ True) :=
  ⟨by decide,
    (subdivision_split_iff 1 ⟨⟨1, 1⟩, ⟨1, 1⟩⟩
        (mkNodeData ⟨⟨⟨-1, 1⟩, ⟨-1, 1⟩⟩, ⟨⟨1, 1⟩, ⟨1, 1⟩⟩⟩ 0) 0
        (by decide) (by decide) (by decide)).1, trivial⟩

namespace GeometryGenerator

theorem NorthEast_eq : IndexStitchingMode.NorthEast = 3 := rfl

theorem SouthEast_eq : IndexStitchingMode.SouthEast = 6 := rfl

theorem SouthWest_eq : IndexStitchingMode.SouthWest = 12 := rfl

theorem NorthWest_eq : IndexStitchingMode.NorthWest = 9 := rfl

/-- Case analysis of the per-quad pattern length: 18 for the corner fans
(6 triangles), 21 for the edge fans (7 triangles), 24 for the full pattern
(8 triangles). -/
theorem quadIndices_len_cases (mode gr x y : ℕ) :
    (quadIndices mode gr x y).length =
      if mode = IndexStitchingMode.SouthWest ∧ x = 0 ∧ y = 0 then 18
      else if mode = IndexStitchingMode.NorthEast ∧ x = gr - 2 ∧ y = gr - 2 then 18
      else if mode = IndexStitchingMode.NorthWest ∧ x = 0 ∧ y = gr - 2 then 18
      else if mode = IndexStitchingMode.SouthEast ∧ x = gr - 2 ∧ y = 0 then 18
      else if (mode = IndexStitchingMode.North ∨ mode = IndexStitchingMode.NorthWest ∨
          mode = IndexStitchingMode.NorthEast) ∧ y = gr - 2 then 21
      else if (mode = IndexStitchingMode.West ∨ mode = IndexStitchingMode.SouthWest ∨
          mode = IndexStitchingMode.NorthWest) ∧ x = 0 then 21
      else if (mode = IndexStitchingMode.East ∨ mode = IndexStitchingMode.NorthEast ∨
          mode = IndexStitchingMode.SouthEast) ∧ x = gr - 2 then 21
      else if (mode = IndexStitchingMode.South ∨ mode = IndexStitchingMode.SouthWest ∨
          mode = IndexStitchingMode.SouthEast) ∧ y = 0 then 21
      else 24 := by
  simp only [quadIndices]
  split_ifs <;> rfl

theorem quadIndices_count_full (res qx qy : ℕ) :
    (quadIndices IndexStitchingMode.Full (2 * res) (2 * qx) (2 * qy)).length =
      3 * 8 := by
  rw [quadIndices_len_cases]
  simp [IndexStitchingMode.Full, IndexStitchingMode.North, IndexStitchingMode.East,
    IndexStitchingMode.South, IndexStitchingMode.West, NorthEast_eq, SouthEast_eq,
    SouthWest_eq, NorthWest_eq]

theorem quadIndices_count_north (res qx qy : ℕ) (hres : 1 ≤ res) (hy : qy < res) :
    (quadIndices IndexStitchingMode.North (2 * res) (2 * qx) (2 * qy)).length =
      3 * (if qy = res - 1 then 7 else 8) := by
  rw [quadIndices_len_cases]
  simp only [IndexStitchingMode.Full, IndexStitchingMode.North,
    IndexStitchingMode.East, IndexStitchingMode.South, IndexStitchingMode.West,
    NorthEast_eq, SouthEast_eq, SouthWest_eq, NorthWest_eq]
  have hiff : 2 * qy = 2 * res - 2 ↔ qy = res - 1 := by omega
  by_cases hq : qy = res - 1 <;> simp [hq, hiff] <;> omega

theorem quadIndices_count_east (res qx qy : ℕ) (hres : 1 ≤ res) (hx : qx < res) :
    (quadIndices IndexStitchingMode.East (2 * res) (2 * qx) (2 * qy)).length =
      3 * (if qx = res - 1 then 7 else 8) := by
  rw [quadIndices_len_cases]
  simp only [IndexStitchingMode.Full, IndexStitchingMode.North,
    IndexStitchingMode.East, IndexStitchingMode.South, IndexStitchingMode.West,
    NorthEast_eq, SouthEast_eq, SouthWest_eq, NorthWest_eq]
  have hiff : 2 * qx = 2 * res - 2 ↔ qx = res - 1 := by omega
  by_cases hq : qx = res - 1 <;> simp [hq, hiff] <;> omega

theorem quadIndices_count_south (res qx qy : ℕ) :
    (quadIndices IndexStitchingMode.South (2 * res) (2 * qx) (2 * qy)).length =
      3 * (if qy = 0 then 7 else 8) := by
  rw [quadIndices_len_cases]
  simp only [IndexStitchingMode.Full, IndexStitchingMode.North,
    IndexStitchingMode.East, IndexStitchingMode.South, IndexStitchingMode.West,
    NorthEast_eq, SouthEast_eq, SouthWest_eq, NorthWest_eq]
  have hiff : 2 * qy = 0 ↔ qy = 0 := by omega
  by_cases hq : qy = 0 <;> simp [hq, hiff] <;> omega

theorem quadIndices_count_west (res qx qy : ℕ) :
    (quadIndices IndexStitchingMode.West (2 * res) (2 * qx) (2 * qy)).length =
      3 * (if qx = 0 then 7 else 8) := by
  rw [quadIndices_len_cases]
  simp only [IndexStitchingMode.Full, IndexStitchingMode.North,
    IndexStitchingMode.East, IndexStitchingMode.South, IndexStitchingMode.West,
    NorthEast_eq, SouthEast_eq, SouthWest_eq, NorthWest_eq]
  have hiff : 2 * qx = 0 ↔ qx = 0 := by omega
  by_cases hq : qx = 0 <;> simp [hq, hiff] <;> omega

theorem quadIndices_count_northWest (res qx qy : ℕ) (hres : 1 ≤ res)
    (hy : qy < res) :
    (quadIndices IndexStitchingMode.NorthWest (2 * res) (2 * qx) (2 * qy)).length =
      if qx = 0 ∧ qy = res - 1 then 18
      else if qy = res - 1 then 21
      else if qx = 0 then 21
      else 24 := by
  rw [quadIndices_len_cases]
  simp only [IndexStitchingMode.Full, IndexStitchingMode.North,
    IndexStitchingMode.East, IndexStitchingMode.South, IndexStitchingMode.West,
    NorthEast_eq, SouthEast_eq, SouthWest_eq, NorthWest_eq]
  have hiffx : 2 * qx = 0 ↔ qx = 0 := by omega
  have hiffy : 2 * qy = 2 * res - 2 ↔ qy = res - 1 := by omega
  by_cases hx0 : qx = 0 <;> by_cases hq : qy = res - 1 <;>
    simp [hx0, hq, hiffx, hiffy] <;> omega

theorem quadIndices_count_northEast (res qx qy : ℕ) (hres : 1 ≤ res)
    (hx : qx < res) (hy : qy < res) :
    (quadIndices IndexStitchingMode.NorthEast (2 * res) (2 * qx) (2 * qy)).length =
      if qx = res - 1 ∧ qy = res - 1 then 18
      else if qy = res - 1 then 21
      else if qx = res - 1 then 21
      else 24 := by
  rw [quadIndices_len_cases]
  simp only [IndexStitchingMode.Full, IndexStitchingMode.North,
    IndexStitchingMode.East, IndexStitchingMode.South, IndexStitchingMode.West,
    NorthEast_eq, SouthEast_eq, SouthWest_eq, NorthWest_eq]
  have hiffx : 2 * qx = 2 * res - 2 ↔ qx = res - 1 := by omega
  have hiffy : 2 * qy = 2 * res - 2 ↔ qy = res - 1 := by omega
  by_cases hx0 : qx = res - 1 <;> by_cases hq : qy = res - 1 <;>
    simp [hx0, hq, hiffx, hiffy] <;> omega

theorem quadIndices_count_southWest (res qx qy : ℕ) :
    (quadIndices IndexStitchingMode.SouthWest (2 * res) (2 * qx) (2 * qy)).length =
      if qx = 0 ∧ qy = 0 then 18
      else if qx = 0 then 21
      else if qy = 0 then 21
      else 24 := by
  rw [quadIndices_len_cases]
  simp only [IndexStitchingMode.Full, IndexStitchingMode.North,
    IndexStitchingMode.East, IndexStitchingMode.South, IndexStitchingMode.West,
    NorthEast_eq, SouthEast_eq, SouthWest_eq, NorthWest_eq]
  have hiffx : 2 * qx = 0 ↔ qx = 0 := by omega
  have hiffy : 2 * qy = 0 ↔ qy = 0 := by omega
  by_cases hx0 : qx = 0 <;> by_cases hq : qy = 0 <;>
    simp [hx0, hq, hiffx, hiffy] <;> omega

theorem quadIndices_count_southEast (res qx qy : ℕ) (hres : 1 ≤ res)
    (hx : qx < res) :
    (quadIndices IndexStitchingMode.SouthEast (2 * res) (2 * qx) (2 * qy)).length =
      if qx = res - 1 ∧ qy = 0 then 18
      else if qx = res - 1 then 21
      else if qy = 0 then 21
      else 24 := by
  rw [quadIndices_len_cases]
  simp only [IndexStitchingMode.Full, IndexStitchingMode.North,
    IndexStitchingMode.East, IndexStitchingMode.South, IndexStitchingMode.West,
    NorthEast_eq, SouthEast_eq, SouthWest_eq, NorthWest_eq]
  have hiffx : 2 * qx = 2 * res - 2 ↔ qx = res - 1 := by omega
  have hiffy : 2 * qy = 0 ↔ qy = 0 := by omega
  by_cases hx0 : qx = res - 1 <;> by_cases hq : qy = 0 <;>
    simp [hx0, hq, hiffx, hiffy] <;> omega

end GeometryGenerator

open GeometryGenerator IndexStitchingMode in
/-- C3.  For every stitching mode the generated index buffer is the
concatenation over all logical quads of that quad's pattern, and the
per-quad triangle counts are: 8 everywhere in Full mode; in each single-edge
mode, 7 exactly on the one row or column of quads touching that edge and 8
elsewhere; in each corner mode, a 6-triangle fan at exactly the corner quad.
(Triangle counts appear as index-list lengths, 3 indices per triangle.) -/
theorem indexBuffer_triangle_counts (res qx qy : ℕ) (hres : 1 ≤ res)
    (hx : qx < res) (hy : qy < res) :
    (∀ mode, generateIndexBufferForStitchingMode mode res =
      (List.range res).flatMap fun a => (List.range res).flatMap fun b =>
        quadIndices mode (res * 2) (2 * b) (2 * a)) ∧
    (quadIndices Full (2 * res) (2 * qx) (2 * qy)).length = 3 * 8 ∧
    (quadIndices North (2 * res) (2 * qx) (2 * qy)).length =
      3 * (if qy = res - 1 then 7 else 8) ∧
    (quadIndices East (2 * res) (2 * qx) (2 * qy)).length =
      3 * (if qx = res - 1 then 7 else 8) ∧
    (quadIndices South (2 * res) (2 * qx) (2 * qy)).length =
      3 * (if qy = 0 then 7 else 8) ∧
    (quadIndices West (2 * res) (2 * qx) (2 * qy)).length =
      3 * (if qx = 0 then 7 else 8) ∧
    ((quadIndices NorthEast (2 * res) (2 * qx) (2 * qy)).length = 3 * 6 ↔
      qx = res - 1 ∧ qy = res - 1) ∧
    ((quadIndices NorthWest (2 * res) (2 * qx) (2 * qy)).length = 3 * 6 ↔
      qx = 0 ∧ qy = res - 1) ∧
    ((quadIndices SouthEast (2 * res) (2 * qx) (2 * qy)).length = 3 * 6 ↔
      qx = res - 1 ∧ qy = 0) ∧
    ((quadIndices SouthWest (2 * res) (2 * qx) (2 * qy)).length = 3 * 6 ↔
      qx = 0 ∧ qy = 0) := by
  refine ⟨fun mode => rfl, quadIndices_count_full res qx qy,
    quadIndices_count_north res qx qy hres hy,
    quadIndices_count_east res qx qy hres hx,
    quadIndices_count_south res qx qy,
    quadIndices_count_west res qx qy, ?_, ?_, ?_, ?_⟩
  · rw [quadIndices_count_northEast res qx qy hres hx hy]
    split_ifs with h1 h2 h3 <;> norm_num <;> tauto
  · rw [quadIndices_count_northWest res qx qy hres hy]
    split_ifs with h1 h2 h3 <;> norm_num <;> tauto
  · rw [quadIndices_count_southEast res qx qy hres hx]
    split_ifs with h1 h2 h3 <;> norm_num <;> tauto
  · rw [quadIndices_count_southWest res qx qy]
    split_ifs with h1 h2 h3 <;> norm_num <;> tauto

open GeometryGenerator IndexStitchingMode in
/-- Witness for C3 at `res = 2`, quad `(0, 1)`: the north-west corner quad of
a 2×2-quad tile. -/
theorem indexBuffer_triangle_counts_witness :
    (1 ≤ 2 ∧ 0 < 2 ∧ 1 < 2) ∧
    ((quadIndices Full (2 * 2) (2 * 0) (2 * 1)).length = 3 * 8 ∧
      ((quadIndices NorthWest (2 * 2) (2 * 0) (2 * 1)).length = 3 * 6 ↔
        (0 : ℕ) = 0 ∧ (1 : ℕ) = 2 - 1)) :=
  ⟨by decide,
    ((indexBuffer_triangle_counts 2 0 1 (by decide) (by decide) (by decide)).2.1),
    ((indexBuffer_triangle_counts 2 0 1 (by decide) (by decide) (by decide)).2.2.2.2.2.2.2.1)⟩

namespace QuadTree

theorem touchesSouthEdge_val {my o : Box2} (hmy : my.valid) (ho : o.valid) :
    touchesSouthEdge my o ↔
      (my.max.y.val = o.min.y.val ∧ my.min.x.val < o.max.x.val ∧
        o.min.x.val < my.max.x.val) := by
  obtain ⟨⟨hmy1, hmy2⟩, ⟨hmy3, hmy4⟩, _, _⟩ := hmy
  obtain ⟨⟨ho1, ho2⟩, ⟨ho3, ho4⟩, _, _⟩ := ho
  rw [touchesSouthEdge, Frac.val_eqv hmy4 ho2, Frac.val_lt hmy1 ho3,
    Frac.val_lt ho1 hmy3]

theorem touchesNorthEdge_val {my o : Box2} (hmy : my.valid) (ho : o.valid) :
    touchesNorthEdge my o ↔
      (my.min.y.val = o.max.y.val ∧ my.min.x.val < o.max.x.val ∧
        o.min.x.val < my.max.x.val) := by
  obtain ⟨⟨hmy1, hmy2⟩, ⟨hmy3, hmy4⟩, _, _⟩ := hmy
  obtain ⟨⟨ho1, ho2⟩, ⟨ho3, ho4⟩, _, _⟩ := ho
  rw [touchesNorthEdge, Frac.val_eqv hmy2 ho4, Frac.val_lt hmy1 ho3,
    Frac.val_lt ho1 hmy3]

theorem touchesWestEdge_val {my o : Box2} (hmy : my.valid) (ho : o.valid) :
    touchesWestEdge my o ↔
      (my.min.x.val = o.max.x.val ∧ my.min.y.val < o.max.y.val ∧
        o.min.y.val < my.max.y.val) := by
  obtain ⟨⟨hmy1, hmy2⟩, ⟨hmy3, hmy4⟩, _, _⟩ := hmy
  obtain ⟨⟨ho1, ho2⟩, ⟨ho3, ho4⟩, _, _⟩ := ho
  rw [touchesWestEdge, Frac.val_eqv hmy1 ho3, Frac.val_lt hmy2 ho4,
    Frac.val_lt ho2 hmy4]

theorem touchesEastEdge_val {my o : Box2} (hmy : my.valid) (ho : o.valid) :
    touchesEastEdge my o ↔
      (my.max.x.val = o.min.x.val ∧ my.min.y.val < o.max.y.val ∧
        o.min.y.val < my.max.y.val) := by
  obtain ⟨⟨hmy1, hmy2⟩, ⟨hmy3, hmy4⟩, _, _⟩ := hmy
  obtain ⟨⟨ho1, ho2⟩, ⟨ho3, ho4⟩, _, _⟩ := ho
  rw [touchesEastEdge, Frac.val_eqv hmy3 ho1, Frac.val_lt hmy2 ho4,
    Frac.val_lt ho2 hmy4]

/-- At most one of the four edge tests can hold for a pair of valid boxes:
the `else if` chain of `updateStitchingModeForNode` therefore selects the
unique shared edge. -/
theorem touches_exclusive {my o : Box2} (hmy : my.valid) (ho : o.valid) :
    (touchesSouthEdge my o → ¬ touchesNorthEdge my o ∧
      ¬ touchesWestEdge my o ∧ ¬ touchesEastEdge my o) ∧
    (touchesNorthEdge my o → ¬ touchesWestEdge my o ∧ ¬ touchesEastEdge my o) ∧
    (touchesWestEdge my o → ¬ touchesEastEdge my o) := by
  have hS := touchesSouthEdge_val hmy ho
  have hN := touchesNorthEdge_val hmy ho
  have hW := touchesWestEdge_val hmy ho
  have hE := touchesEastEdge_val hmy ho
  have hmyy : my.min.y.val < my.max.y.val :=
    (Frac.val_lt hmy.1.2 hmy.2.1.2).mp hmy.2.2.2
  have hmyx : my.min.x.val < my.max.x.val :=
    (Frac.val_lt hmy.1.1 hmy.2.1.1).mp hmy.2.2.1
  have hoy : o.min.y.val < o.max.y.val :=
    (Frac.val_lt ho.1.2 ho.2.1.2).mp ho.2.2.2
  have hox : o.min.x.val < o.max.x.val :=
    (Frac.val_lt ho.1.1 ho.2.1.1).mp ho.2.2.1
  rw [hS, hN, hW, hE]
  refine ⟨fun h1 => ⟨fun h2 => ?_, fun h2 => ?_, fun h2 => ?_⟩,
    fun h1 => ⟨fun h2 => ?_, fun h2 => ?_⟩, fun h1 h2 => ?_⟩ <;>
    obtain ⟨a1, a2, a3⟩ := h1 <;> obtain ⟨b1, b2, b3⟩ := h2 <;> linarith

end QuadTree

namespace QuadTree

theorem testBit_edgeBit_high {k i : ℕ}
    (hk : k = 0 ∨ k = 1 ∨ k = 2 ∨ k = 4 ∨ k = 8) (hi : 4 ≤ i) :
    Nat.testBit k i = false := by
  rcases hk with h | h | h | h | h <;> subst h
  · exact Nat.zero_testBit i
  · rw [show (1 : ℕ) = 2 ^ 0 from rfl, Nat.testBit_two_pow]
    simp; omega
  · rw [show (2 : ℕ) = 2 ^ 1 from rfl, Nat.testBit_two_pow]
    simp; omega
  · rw [show (4 : ℕ) = 2 ^ 2 from rfl, Nat.testBit_two_pow]
    simp; omega
  · rw [show (8 : ℕ) = 2 ^ 3 from rfl, Nat.testBit_two_pow]
    simp; omega

/-- Bit-level reading of a single `other` node's contribution: bit 0 is the
North bit, bit 1 East, bit 2 South, bit 3 West; no bit above 3 is ever
produced. -/
theorem stitchContribution_testBit (node o : NodeData)
    (hn : node.bounds.valid) (ho : o.bounds.valid) :
    ((stitchContribution node o).testBit 0 = true ↔
      (o.level < node.level ∧ areEdgeNeighbors node.bounds o.bounds ∧
        touchesNorthEdge node.bounds o.bounds)) ∧
    ((stitchContribution node o).testBit 1 = true ↔
      (o.level < node.level ∧ areEdgeNeighbors node.bounds o.bounds ∧
        touchesEastEdge node.bounds o.bounds)) ∧
    ((stitchContribution node o).testBit 2 = true ↔
      (o.level < node.level ∧ areEdgeNeighbors node.bounds o.bounds ∧
        touchesSouthEdge node.bounds o.bounds)) ∧
    ((stitchContribution node o).testBit 3 = true ↔
      (o.level < node.level ∧ areEdgeNeighbors node.bounds o.bounds ∧
        touchesWestEdge node.bounds o.bounds)) ∧
    (∀ i, 4 ≤ i → (stitchContribution node o).testBit i = false) := by
  have hex : (touchesSouthEdge node.bounds o.bounds →
      ¬ touchesNorthEdge node.bounds o.bounds ∧
        ¬ touchesWestEdge node.bounds o.bounds ∧
        ¬ touchesEastEdge node.bounds o.bounds) ∧
    (touchesNorthEdge node.bounds o.bounds →
      ¬ touchesWestEdge node.bounds o.bounds ∧
        ¬ touchesEastEdge node.bounds o.bounds) ∧
    (touchesWestEdge node.bounds o.bounds →
      ¬ touchesEastEdge node.bounds o.bounds) := touches_exclusive hn ho
  simp only [stitchContribution, IndexStitchingMode.North, IndexStitchingMode.East,
    IndexStitchingMode.South, IndexStitchingMode.West]
  split_ifs with hlev hadj hS hN hW hE
  · refine ⟨?_, ?_, ?_, ?_, fun i hi => testBit_edgeBit_high (Or.inl rfl) hi⟩ <;>
      exact iff_of_false (by decide) (fun h => by omega)
  · refine ⟨?_, ?_, ?_, ?_,
      fun i hi => testBit_edgeBit_high (by norm_num) hi⟩
    · exact iff_of_false (by decide) (fun h => (hex.1 hS).1 h.2.2)
    · exact iff_of_false (by decide) (fun h => (hex.1 hS).2.2 h.2.2)
    · exact iff_of_true (by decide) ⟨by omega, hadj, hS⟩
    · exact iff_of_false (by decide) (fun h => (hex.1 hS).2.1 h.2.2)
  · refine ⟨?_, ?_, ?_, ?_,
      fun i hi => testBit_edgeBit_high (by norm_num) hi⟩
    · exact iff_of_true (by decide) ⟨by omega, hadj, hN⟩
    · exact iff_of_false (by decide) (fun h => (hex.2.1 hN).2 h.2.2)
    · exact iff_of_false (by decide) (fun h => hS h.2.2)
    · exact iff_of_false (by decide) (fun h => (hex.2.1 hN).1 h.2.2)
  · refine ⟨?_, ?_, ?_, ?_,
      fun i hi => testBit_edgeBit_high (by norm_num) hi⟩
    · exact iff_of_false (by decide) (fun h => hN h.2.2)
    · exact iff_of_false (by decide) (fun h => (hex.2.2 hW) h.2.2)
    · exact iff_of_false (by decide) (fun h => hS h.2.2)
    · exact iff_of_true (by decide) ⟨by omega, hadj, hW⟩
  · refine ⟨?_, ?_, ?_, ?_,
      fun i hi => testBit_edgeBit_high (by norm_num) hi⟩
    · exact iff_of_false (by decide) (fun h => hN h.2.2)
    · exact iff_of_true (by decide) ⟨by omega, hadj, hE⟩
    · exact iff_of_false (by decide) (fun h => hS h.2.2)
    · exact iff_of_false (by decide) (fun h => hW h.2.2)
  · refine ⟨?_, ?_, ?_, ?_, fun i hi => testBit_edgeBit_high (Or.inl rfl) hi⟩
    · exact iff_of_false (by decide) (fun h => hN h.2.2)
    · exact iff_of_false (by decide) (fun h => hE h.2.2)
    · exact iff_of_false (by decide) (fun h => hS h.2.2)
    · exact iff_of_false (by decide) (fun h => hW h.2.2)
  · refine ⟨?_, ?_, ?_, ?_, fun i hi => testBit_edgeBit_high (Or.inl rfl) hi⟩ <;>
      exact iff_of_false (by decide) (fun h => hadj h.2.1)

theorem foldl_lor_testBit (f : NodeData → ℕ) (ls : List NodeData) (acc i : ℕ) :
    (ls.foldl (fun m o => m ||| f o) acc).testBit i =
      (acc.testBit i || ls.any fun o => (f o).testBit i) := by
  induction ls generalizing acc with
  | nil => simp
  | cons o rest ih =>
      simp [List.foldl_cons, ih, Nat.testBit_lor, Bool.or_assoc]

end QuadTree

namespace QuadTree

/-- The mask returned by `updateStitchingModeForNode`, bit by bit. -/
theorem updateStitchingMode_anyBit (node : NodeData) (ls : List NodeData)
    (i : ℕ) :
    (updateStitchingModeForNode node ls).testBit i =
      (ls.any fun o => (stitchContribution node o).testBit i) := by
  rw [updateStitchingModeForNode, foldl_lor_testBit]
  simp [IndexStitchingMode.Full]

end QuadTree

open QuadTree in
/-- C2 (amended).  For a leaf with valid bounds and any node list with valid
bounds, `updateStitchingModeForNode` sets a bit exactly for each other leaf
at a strictly lower level that is edge-adjacent, and the bit names the
shared edge with the code's orientation: the South bit (bit 2, value 4) when
the leaf's max-Y touches the other's min-Y, the North bit (bit 0, value 1)
when the leaf's min-Y touches the other's max-Y, the East bit (bit 1, value
2) when the leaf's max-X touches the other's min-X, and the West bit (bit 3,
value 8) when the leaf's min-X touches the other's max-X; rectangles
touching at a single point satisfy no edge test and contribute no bit, and
no bit other than the four edge bits is ever set. -/
theorem updateStitchingMode_spec (node : NodeData) (ls : List NodeData)
    (hn : node.bounds.valid) (hall : ∀ o ∈ ls, o.bounds.valid) :
    ((updateStitchingModeForNode node ls).testBit 2 = true ↔
      ∃ o ∈ ls, o.level < node.level ∧ areEdgeNeighbors node.bounds o.bounds ∧
        touchesSouthEdge node.bounds o.bounds) ∧
    ((updateStitchingModeForNode node ls).testBit 0 = true ↔
      ∃ o ∈ ls, o.level < node.level ∧ areEdgeNeighbors node.bounds o.bounds ∧
        touchesNorthEdge node.bounds o.bounds) ∧
    ((updateStitchingModeForNode node ls).testBit 1 = true ↔
      ∃ o ∈ ls, o.level < node.level ∧ areEdgeNeighbors node.bounds o.bounds ∧
        touchesEastEdge node.bounds o.bounds) ∧
    ((updateStitchingModeForNode node ls).testBit 3 = true ↔
      ∃ o ∈ ls, o.level < node.level ∧ areEdgeNeighbors node.bounds o.bounds ∧
        touchesWestEdge node.bounds o.bounds) ∧
    (∀ i, 4 ≤ i → (updateStitchingModeForNode node ls).testBit i = false) := by
  refine ⟨?_, ?_, ?_, ?_, fun i hi => ?_⟩
  · rw [updateStitchingMode_anyBit, List.any_eq_true]
    constructor
    · rintro ⟨o, ho, hP⟩
      exact ⟨o, ho,
        ((stitchContribution_testBit node o hn (hall o ho)).2.2.1).mp hP⟩
    · rintro ⟨o, ho, hP⟩
      exact ⟨o, ho,
        ((stitchContribution_testBit node o hn (hall o ho)).2.2.1).mpr hP⟩
  · rw [updateStitchingMode_anyBit, List.any_eq_true]
    constructor
    · rintro ⟨o, ho, hP⟩
      exact ⟨o, ho, ((stitchContribution_testBit node o hn (hall o ho)).1).mp hP⟩
    · rintro ⟨o, ho, hP⟩
      exact ⟨o, ho, ((stitchContribution_testBit node o hn (hall o ho)).1).mpr hP⟩
  · rw [updateStitchingMode_anyBit, List.any_eq_true]
    constructor
    · rintro ⟨o, ho, hP⟩
      exact ⟨o, ho,
        ((stitchContribution_testBit node o hn (hall o ho)).2.1).mp hP⟩
    · rintro ⟨o, ho, hP⟩
      exact ⟨o, ho,
        ((stitchContribution_testBit node o hn (hall o ho)).2.1).mpr hP⟩
  · rw [updateStitchingMode_anyBit, List.any_eq_true]
    constructor
    · rintro ⟨o, ho, hP⟩
      exact ⟨o, ho,
        ((stitchContribution_testBit node o hn (hall o ho)).2.2.2.1).mp hP⟩
    · rintro ⟨o, ho, hP⟩
      exact ⟨o, ho,
        ((stitchContribution_testBit node o hn (hall o ho)).2.2.2.1).mpr hP⟩
  · rw [updateStitchingMode_anyBit]
    rw [List.any_eq_false]
    intro o ho
    simp [(stitchContribution_testBit node o hn (hall o ho)).2.2.2.2 i hi]

/-- Concrete leaf at level 1 with bounds `(0,0) – (1,1)`. -/
def stitchSampleLeaf : NodeData :=
  mkNodeData ⟨⟨⟨0, 1⟩, ⟨0, 1⟩⟩, ⟨⟨1, 1⟩, ⟨1, 1⟩⟩⟩ 1

/-- Concrete coarser node at level 0 with bounds `(0,1) – (2,2)`: it shares
the sample leaf's max-Y edge (the leaf's max-Y equals its min-Y). -/
def stitchSampleCoarse : NodeData :=
  mkNodeData ⟨⟨⟨0, 1⟩, ⟨1, 1⟩⟩, ⟨⟨2, 1⟩, ⟨2, 1⟩⟩⟩ 0

open QuadTree in
/-- Counterexample to C2 as stated: for a strictly coarser, edge-adjacent
node touching the leaf's max-Y edge, the code sets the South bit (bit 2),
not the North bit (bit 0) the claim names for that configuration. -/
theorem updateStitchingMode_claim_counterexample :
    (stitchSampleCoarse.level < stitchSampleLeaf.level ∧
      areEdgeNeighbors stitchSampleLeaf.bounds stitchSampleCoarse.bounds ∧
      stitchSampleLeaf.bounds.max.y.eqv stitchSampleCoarse.bounds.min.y) ∧
    (updateStitchingModeForNode stitchSampleLeaf [stitchSampleCoarse]).testBit 0 =
      false ∧
    (updateStitchingModeForNode stitchSampleLeaf [stitchSampleCoarse]).testBit 2 =
      true := by
  decide

open QuadTree in
/-- Witness for the amended C2 at the concrete pair above. -/
theorem updateStitchingMode_spec_witness :
    (stitchSampleLeaf.bounds.valid ∧
      ∀ o ∈ [stitchSampleCoarse], o.bounds.valid) ∧
    ((updateStitchingModeForNode stitchSampleLeaf [stitchSampleCoarse]).testBit 2 =
        true ↔
      ∃ o ∈ [stitchSampleCoarse], o.level < stitchSampleLeaf.level ∧
        areEdgeNeighbors stitchSampleLeaf.bounds o.bounds ∧
        touchesSouthEdge stitchSampleLeaf.bounds o.bounds) :=
  ⟨⟨by decide, by decide⟩,
    (updateStitchingMode_spec stitchSampleLeaf [stitchSampleCoarse] (by decide)
      (by decide)).1⟩

open GeometryGenerator TerrainTile in
/-- C9 (amended).  A stitching mask outside the nine defined modes is left
exactly as accumulated (no assertion resets it), and when the leaf's
geometry is resolved for such a mask the index-buffer lookup finds no table
entry, so the mesh's index is set to `undefined` — the geometry does *not*
degrade to the Full-mode index buffer. -/
theorem invalidMask_no_full_degrade (ts mode : ℕ) (t : TileRenderState)
    (hmode : mode ∉ allStitchingModes) (hm : t.stitchingMode = mode) :
    (updateStitchingModeDependentResources
        (intitializeIndexBufferForStitchingModes ts) t).stitchingMode = mode ∧
    (updateStitchingModeDependentResources
        (intitializeIndexBufferForStitchingModes ts) t).meshIndex = none := by
  refine ⟨hm, ?_⟩
  show (getIndexBufferForStitchingMode
      (intitializeIndexBufferForStitchingModes ts) t.stitchingMode) = none
  rw [getIndexBufferForStitchingMode, Option.map_eq_none']
  rw [List.find?_eq_none]
  intro e he
  rw [intitializeIndexBufferForStitchingModes, List.mem_map] at he
  obtain ⟨m, hmem, rfl⟩ := he
  have : m ≠ mode := fun h => hmode (h ▸ hmem)
  simp [hm, this]

/-- Leaf at level 2 with bounds `(0,0) – (1,1)`. -/
def maskSampleLeaf : NodeData :=
  mkNodeData ⟨⟨⟨0, 1⟩, ⟨0, 1⟩⟩, ⟨⟨1, 1⟩, ⟨1, 1⟩⟩⟩ 2

/-- Coarser node below the sample leaf: bounds `(-1,-1) – (1,0)`, level 0. -/
def maskSampleBelow : NodeData :=
  mkNodeData ⟨⟨⟨-1, 1⟩, ⟨-1, 1⟩⟩, ⟨⟨1, 1⟩, ⟨0, 1⟩⟩⟩ 0

/-- Coarser node above the sample leaf: bounds `(-1,1) – (1,3)`, level 0. -/
def maskSampleAbove : NodeData :=
  mkNodeData ⟨⟨⟨-1, 1⟩, ⟨1, 1⟩⟩, ⟨⟨1, 1⟩, ⟨3, 1⟩⟩⟩ 0

open GeometryGenerator QuadTree TerrainTile in
/-- Counterexample to C9 as stated: the accumulated mask `North ||| South
= 5` (opposite edges, outside the nine modes) is reachable, and resolving
geometry for it sets the mesh index to `none` although the Full-mode buffer
exists — the leaf does not degrade to the Full stitching mode. -/
theorem invalidMask_claim_counterexample :
    (updateStitchingModeForNode maskSampleLeaf
        [maskSampleBelow, maskSampleAbove] = 5 ∧
      5 ∉ allStitchingModes) ∧
    (updateStitchingModeDependentResources
        (intitializeIndexBufferForStitchingModes 2)
        ⟨5, true, true, none⟩).meshIndex = none ∧
    (getIndexBufferForStitchingMode (intitializeIndexBufferForStitchingModes 2)
        IndexStitchingMode.Full) ≠ none := by
  decide

open GeometryGenerator TerrainTile in
/-- Witness for the amended C9 at mask 5 and tile size 2. -/
theorem invalidMask_no_full_degrade_witness :
    ((5 : ℕ) ∉ allStitchingModes ∧
      (⟨5, true, true, none⟩ : TileRenderState).stitchingMode = 5) ∧
    ((updateStitchingModeDependentResources
        (intitializeIndexBufferForStitchingModes 2)
        ⟨5, true, true, none⟩).stitchingMode = 5 ∧
      (updateStitchingModeDependentResources
        (intitializeIndexBufferForStitchingModes 2)
        ⟨5, true, true, none⟩).meshIndex = none) :=
  ⟨⟨by decide, rfl⟩,
    invalidMask_no_full_degrade 2 5 ⟨5, true, true, none⟩ (by decide) rfl⟩

open Terrain in
/-- C6 (amended).  The async completion handler inserts the resolved tile
into the active tile list and the scene unconditionally — it never consults
the current leaf snapshot (which it leaves untouched); only a request that
resolved with no tile is dropped.  Stale completions are therefore inserted
and only removed by a later tick's removal scan. -/
theorem completeTileRequest_spec (s : TerrainState) (nodeId : String) :
    (∀ t, (completeTileRequest s nodeId (some t)).terrainTiles =
        s.terrainTiles ++ [t] ∧
      (completeTileRequest s nodeId (some t)).sceneChildren =
        s.sceneChildren ++ [t]) ∧
    (completeTileRequest s nodeId none).terrainTiles = s.terrainTiles ∧
    (∀ o, (completeTileRequest s nodeId o).loadingTileIds =
      s.loadingTileIds.erase nodeId) ∧
    (∀ o, (completeTileRequest s nodeId o).currentLeafIds = s.currentLeafIds) := by
  refine ⟨fun t => ⟨rfl, rfl⟩, rfl, fun o => ?_, fun o => ?_⟩ <;> cases o <;> rfl

open Terrain in
/-- Counterexample to C6 as stated: tick 1 requests leaf `B`; tick 2 moves to
snapshot `[A]` while `B` is still in flight; when `B` completes, its leaf is
no longer in the current leaf snapshot, yet the tile is inserted into the
active tile list and the scene instead of being discarded. -/
theorem staleCompletion_counterexample :
    "B" ∉ ((updateFromQuadTreeNodes
        ((updateFromQuadTreeNodes ⟨[], [], [], []⟩ ["B"]).1) ["A"]).1).currentLeafIds ∧
    "B" ∈ (completeTileRequest
        ((updateFromQuadTreeNodes
          ((updateFromQuadTreeNodes ⟨[], [], [], []⟩ ["B"]).1) ["A"]).1)
        "B" (some "B")).terrainTiles ∧
    "B" ∈ (completeTileRequest
        ((updateFromQuadTreeNodes
          ((updateFromQuadTreeNodes ⟨[], [], [], []⟩ ["B"]).1) ["A"]).1)
        "B" (some "B")).sceneChildren := by
  decide

open TerrainTile in
/-- C8 (amended).  `dispose` releases the tile's geometries and material
*and* disposes both the dem and dop textures it references (it is not a
reference-only cleanup); nothing else is touched in the ledger. -/
theorem dispose_releases_textures (t : TerrainTile) (h : GpuResources) :
    (dispose t h).disposedGeometries =
      h.disposedGeometries ++ t.mesh.toList ++ t.lineMesh.toList ∧
    (dispose t h).disposedMaterials = h.disposedMaterials ++ t.material.toList ∧
    (dispose t h).disposedTextures =
      h.disposedTextures ++ t.demTexture.toList ++ t.dopTexture.toList := by
  obtain ⟨id, mesh, lineMesh, material, boxHelper, dem, dop, a, r, w, u⟩ := t
  cases mesh <;> cases lineMesh <;> cases material <;> cases dem <;> cases dop <;>
    simp [dispose]

/-- Counterexample to C8 as stated: after `dispose` on a tile holding dem
texture `0` and dop texture `1`, both texture handles are in the disposed
ledger — the textures are not left unreleased. -/
theorem dispose_claim_counterexample :
    0 ∈ (TerrainTile.dispose
        { id := ⟨0, ⟨0, 1⟩, ⟨0, 1⟩⟩, mesh := some 2, demTexture := some 0,
          dopTexture := some 1 } ⟨[], [], []⟩).disposedTextures ∧
    1 ∈ (TerrainTile.dispose
        { id := ⟨0, ⟨0, 1⟩, ⟨0, 1⟩⟩, mesh := some 2, demTexture := some 0,
          dopTexture := some 1 } ⟨[], [], []⟩).disposedTextures := by
  decide

open TerrainTileManager in
/-- C7 (amended).  Texture acquisition is not deduplicated by path: every
cache-miss tile construction performs its own `loadAsync` for its dop and
dem paths — appending both to the load log no matter how often they were
loaded before — and receives freshly allocated texture objects.  Sharing
exists only at the granularity of whole cached tiles keyed by tile id. -/
theorem textureLoads_not_deduplicated (cache : List (TileKey × TerrainTile))
    (loader : LoaderState) (metadata : List TerrainLevelMetadata)
    (node : NodeData) (a r : ℕ) (w u : Bool) (info : TerrainLevelMetadata)
    (hmiss : (cache.find? fun e =>
        e.1 == (⟨node.level, node.center.x, node.center.y⟩ : TileKey)) = none)
    (hinfo : getTileInfoForNode metadata node = some info) :
    (requestTerrainTileForNode cache loader metadata node a r w u).2.2.loadLog =
      loader.loadLog ++ [info.dopImagePath, info.demImagePath] ∧
    ∃ tile, (requestTerrainTileForNode cache loader metadata node a r w u).1 =
        some tile ∧
      tile.dopTexture = some loader.nextHandle ∧
      tile.demTexture = some (loader.nextHandle + 1) := by
  simp [requestTerrainTileForNode, hmiss, hinfo, createTerrainTile, loadAsync]

/-- Catalog with two tiles whose color images share the path `p`. -/
def sharedPathMetadata : List TerrainLevelMetadata :=
  [⟨0, ⟨1, 1⟩, ⟨1, 1⟩, "p", "d1"⟩, ⟨1, ⟨1, 2⟩, ⟨1, 2⟩, "p", "d2"⟩]

/-- Level-0 node over `(0,0) – (2,2)` (center `(1,1)`). -/
def sharedPathNode0 : NodeData :=
  mkNodeData ⟨⟨⟨0, 1⟩, ⟨0, 1⟩⟩, ⟨⟨2, 1⟩, ⟨2, 1⟩⟩⟩ 0

/-- Level-1 node over `(0,0) – (1,1)` (center `(1/2,1/2)`). -/
def sharedPathNode1 : NodeData :=
  mkNodeData ⟨⟨⟨0, 1⟩, ⟨0, 1⟩⟩, ⟨⟨1, 1⟩, ⟨1, 1⟩⟩⟩ 1

/-- First request: empty cache, fresh loader. -/
def sharedPathRun1 :
    Option TerrainTile × List (TileKey × TerrainTile) × LoaderState :=
  TerrainTileManager.requestTerrainTileForNode [] ⟨0, []⟩ sharedPathMetadata
    sharedPathNode0 16 33 false true

/-- Second request, for a different tile whose color image is the same path. -/
def sharedPathRun2 :
    Option TerrainTile × List (TileKey × TerrainTile) × LoaderState :=
  TerrainTileManager.requestTerrainTileForNode sharedPathRun1.2.1
    sharedPathRun1.2.2 sharedPathMetadata sharedPathNode1 16 33 false true

/-- Counterexample to C7 as stated: across the two tile requests the path
`p` is loaded twice, and the two tiles hold distinct texture objects
(handles 0 and 2) rather than sharing one by reference. -/
theorem textureLoads_claim_counterexample :
    sharedPathRun2.2.2.loadLog = ["p", "d1", "p", "d2"] ∧
    sharedPathRun2.2.2.loadLog.count "p" = 2 ∧
    (sharedPathRun1.1.map fun t => t.dopTexture) = some (some 0) ∧
    (sharedPathRun2.1.map fun t => t.dopTexture) = some (some 2) := by
  decide

open TerrainTileManager in
/-- Witness for the amended C7: the first sample request is a cache miss
with a catalog hit and performs both loads. -/
theorem textureLoads_not_deduplicated_witness :
    ((([] : List (TileKey × TerrainTile)).find? fun e =>
        e.1 == (⟨sharedPathNode0.level, sharedPathNode0.center.x,
          sharedPathNode0.center.y⟩ : TileKey)) = none ∧
      getTileInfoForNode sharedPathMetadata sharedPathNode0 =
        some ⟨0, ⟨1, 1⟩, ⟨1, 1⟩, "p", "d1"⟩) ∧
    ((requestTerrainTileForNode [] ⟨0, []⟩ sharedPathMetadata sharedPathNode0
        16 33 false true).2.2.loadLog = [] ++ ["p", "d1"] ∧
      ∃ tile, (requestTerrainTileForNode [] ⟨0, []⟩ sharedPathMetadata
          sharedPathNode0 16 33 false true).1 = some tile ∧
        tile.dopTexture = some 0 ∧ tile.demTexture = some (0 + 1)) :=
  ⟨⟨by decide, by decide⟩,
    textureLoads_not_deduplicated [] ⟨0, []⟩ sharedPathMetadata sharedPathNode0
      16 33 false true ⟨0, ⟨1, 1⟩, ⟨1, 1⟩, "p", "d1"⟩ (by decide) (by decide)⟩

open TerrainTileManager in
/-- C10.  When the tile id derived from the node is already in the cache,
`requestTerrainTileForNode` returns the previously constructed tile as is,
changes neither the cache nor the loader, and its result is entirely
independent of the anisotropy, resolution, wireframe and
`shouldUseDemTexture` arguments of the new call. -/
theorem requestTile_cacheHit (cache : List (TileKey × TerrainTile))
    (loader : LoaderState) (metadata : List TerrainLevelMetadata)
    (node : NodeData) (a r : ℕ) (w u : Bool) (t : TerrainTile)
    (hhit : ((cache.find? fun e =>
        e.1 == (⟨node.level, node.center.x, node.center.y⟩ : TileKey)).map
          Prod.snd) = some t) :
    requestTerrainTileForNode cache loader metadata node a r w u =
      (some t, cache, loader) ∧
    ∀ a2 r2 : ℕ, ∀ w2 u2 : Bool,
      requestTerrainTileForNode cache loader metadata node a r w u =
        requestTerrainTileForNode cache loader metadata node a2 r2 w2 u2 := by
  constructor
  · simp [requestTerrainTileForNode, hhit]
  · intro a2 r2 w2 u2
    simp [requestTerrainTileForNode, hhit]

/-- The cache key derived from `sharedPathNode0` (its center is the exact
midpoint `(1,1)` represented as `2/2`). -/
def cachedSampleKey : TileKey := ⟨0, ⟨2, 2⟩, ⟨2, 2⟩⟩

/-- A tile as first built, with anisotropy 7 and resolution 11 recorded. -/
def cachedSampleTile : TerrainTile :=
  { id := cachedSampleKey, demTexture := some 1, dopTexture := some 0,
    anistropy := 7, resolution := 11 }

open TerrainTileManager in
/-- Witness for C10: a repeated request with different anisotropy /
resolution / wireframe / dem-texture arguments returns the cached tile
unchanged (which still records anisotropy 7), touching neither cache nor
loader. -/
theorem requestTile_cacheHit_witness :
    ((([(cachedSampleKey, cachedSampleTile)] :
        List (TileKey × TerrainTile)).find? fun e =>
          e.1 == (⟨sharedPathNode0.level, sharedPathNode0.center.x,
            sharedPathNode0.center.y⟩ : TileKey)).map Prod.snd) =
      some cachedSampleTile ∧
    (requestTerrainTileForNode [(cachedSampleKey, cachedSampleTile)] ⟨5, []⟩
        sharedPathMetadata sharedPathNode0 16 33 true false =
      (some cachedSampleTile, [(cachedSampleKey, cachedSampleTile)], ⟨5, []⟩) ∧
      cachedSampleTile.anistropy = 7) :=
  ⟨by decide,
    (requestTile_cacheHit [(cachedSampleKey, cachedSampleTile)] ⟨5, []⟩
      sharedPathMetadata sharedPathNode0 16 33 true false cachedSampleTile
      (by decide)).1,
    by decide⟩

/-- Non-strict order on `Frac` by cross multiplication. -/
protected def Frac.le (a b : Frac) : Prop := a.n * b.d ≤ b.n * a.d

instance : LE Frac := ⟨Frac.le⟩

instance (a b : Frac) : Decidable (a ≤ b) :=
  inferInstanceAs (Decidable (a.n * b.d ≤ b.n * a.d))

theorem Frac.val_le {a b : Frac} (ha : a.posDen) (hb : b.posDen) :
    a ≤ b ↔ a.val ≤ b.val := by
  have ha' : (0 : ℚ) < (a.d : ℚ) := by exact_mod_cast ha
  have hb' : (0 : ℚ) < (b.d : ℚ) := by exact_mod_cast hb
  show a.n * b.d ≤ b.n * a.d ↔ a.val ≤ b.val
  rw [Frac.val, Frac.val, div_le_div_iff ha' hb']
  constructor
  · intro h; exact_mod_cast h
  · intro h; exact_mod_cast h

/-- Closed membership in a rectangle. -/
def memBox (q : Vec2) (b : Box2) : Prop :=
  b.min.x ≤ q.x ∧ q.x ≤ b.max.x ∧ b.min.y ≤ q.y ∧ q.y ≤ b.max.y

/-- Membership in the open interior of a rectangle. -/
def memInterior (q : Vec2) (b : Box2) : Prop :=
  b.min.x < q.x ∧ q.x < b.max.x ∧ b.min.y < q.y ∧ q.y < b.max.y

instance (q : Vec2) (b : Box2) : Decidable (memBox q b) :=
  inferInstanceAs (Decidable (_ ∧ _ ∧ _ ∧ _))

instance (q : Vec2) (b : Box2) : Decidable (memInterior q b) :=
  inferInstanceAs (Decidable (_ ∧ _ ∧ _ ∧ _))

theorem Frac.midpoint_posDen {a b : Frac} (ha : a.posDen) (hb : b.posDen) :
    (a + b).half.posDen := Frac.posDen_half (Frac.posDen_add ha hb)

theorem Frac.val_midpoint {a b : Frac} (ha : a.posDen) (hb : b.posDen) :
    (a + b).half.val = (a.val + b.val) / 2 := by
  rw [Frac.val_half (Frac.posDen_add ha hb), Frac.val_add ha hb]

theorem Frac.midpoint_between {a b : Frac} (ha : a.posDen) (hb : b.posDen)
    (h : a < b) : a < (a + b).half ∧ (a + b).half < b := by
  have hm := Frac.midpoint_posDen ha hb
  have hv := (Frac.val_lt ha hb).mp h
  constructor
  · rw [Frac.val_lt ha hm, Frac.val_midpoint ha hb]; linarith
  · rw [Frac.val_lt hm hb, Frac.val_midpoint ha hb]; linarith

theorem memBox_val (q : Vec2) (b : Box2) (hq : q.posDen) (hmin : b.min.posDen)
    (hmax : b.max.posDen) :
    memBox q b ↔
      (b.min.x.val ≤ q.x.val ∧ q.x.val ≤ b.max.x.val ∧
        b.min.y.val ≤ q.y.val ∧ q.y.val ≤ b.max.y.val) := by
  rw [memBox, Frac.val_le hmin.1 hq.1, Frac.val_le hq.1 hmax.1,
    Frac.val_le hmin.2 hq.2, Frac.val_le hq.2 hmax.2]

theorem memInterior_val (q : Vec2) (b : Box2) (hq : q.posDen)
    (hmin : b.min.posDen) (hmax : b.max.posDen) :
    memInterior q b ↔
      (b.min.x.val < q.x.val ∧ q.x.val < b.max.x.val ∧
        b.min.y.val < q.y.val ∧ q.y.val < b.max.y.val) := by
  rw [memInterior, Frac.val_lt hmin.1 hq.1, Frac.val_lt hq.1 hmax.1,
    Frac.val_lt hmin.2 hq.2, Frac.val_lt hq.2 hmax.2]

/-- The four quadrant rectangles of a valid rectangle (bottom-left,
bottom-right, top-left, top-right, as built by `createChildNodes`) are
valid, cover the parent exactly, and have pairwise disjoint interiors. -/
theorem quadrants_geometry (b : Box2) (hv : b.valid) :
    ((⟨b.min, b.getCenter⟩ : Box2).valid ∧
      (⟨⟨b.getCenter.x, b.min.y⟩, ⟨b.max.x, b.getCenter.y⟩⟩ : Box2).valid ∧
      (⟨⟨b.min.x, b.getCenter.y⟩, ⟨b.getCenter.x, b.max.y⟩⟩ : Box2).valid ∧
      (⟨b.getCenter, b.max⟩ : Box2).valid) ∧
    (∀ q : Vec2, q.posDen →
      (memBox q b ↔
        memBox q ⟨b.min, b.getCenter⟩ ∨
        memBox q ⟨⟨b.getCenter.x, b.min.y⟩, ⟨b.max.x, b.getCenter.y⟩⟩ ∨
        memBox q ⟨⟨b.min.x, b.getCenter.y⟩, ⟨b.getCenter.x, b.max.y⟩⟩ ∨
        memBox q ⟨b.getCenter, b.max⟩)) ∧
    (∀ q : Vec2, q.posDen →
      ¬ (memInterior q ⟨b.min, b.getCenter⟩ ∧
          memInterior q ⟨⟨b.getCenter.x, b.min.y⟩, ⟨b.max.x, b.getCenter.y⟩⟩) ∧
      ¬ (memInterior q ⟨b.min, b.getCenter⟩ ∧
          memInterior q ⟨⟨b.min.x, b.getCenter.y⟩, ⟨b.getCenter.x, b.max.y⟩⟩) ∧
      ¬ (memInterior q ⟨b.min, b.getCenter⟩ ∧
          memInterior q ⟨b.getCenter, b.max⟩) ∧
      ¬ (memInterior q ⟨⟨b.getCenter.x, b.min.y⟩, ⟨b.max.x, b.getCenter.y⟩⟩ ∧
          memInterior q ⟨⟨b.min.x, b.getCenter.y⟩, ⟨b.getCenter.x, b.max.y⟩⟩) ∧
      ¬ (memInterior q ⟨⟨b.getCenter.x, b.min.y⟩, ⟨b.max.x, b.getCenter.y⟩⟩ ∧
          memInterior q ⟨b.getCenter, b.max⟩) ∧
      ¬ (memInterior q ⟨⟨b.min.x, b.getCenter.y⟩, ⟨b.getCenter.x, b.max.y⟩⟩ ∧
          memInterior q ⟨b.getCenter, b.max⟩)) := by
  obtain ⟨hmn, hmx, hltx, hlty⟩ := hv
  have hmidx : b.getCenter.x.posDen := Frac.midpoint_posDen hmn.1 hmx.1
  have hmidy : b.getCenter.y.posDen := Frac.midpoint_posDen hmn.2 hmx.2
  have hbx := Frac.midpoint_between hmn.1 hmx.1 hltx
  have hby := Frac.midpoint_between hmn.2 hmx.2 hlty
  have hvx1 : b.min.x.val < b.getCenter.x.val :=
    (Frac.val_lt hmn.1 hmidx).mp hbx.1
  have hvx2 : b.getCenter.x.val < b.max.x.val :=
    (Frac.val_lt hmidx hmx.1).mp hbx.2
  have hvy1 : b.min.y.val < b.getCenter.y.val :=
    (Frac.val_lt hmn.2 hmidy).mp hby.1
  have hvy2 : b.getCenter.y.val < b.max.y.val :=
    (Frac.val_lt hmidy hmx.2).mp hby.2
  refine ⟨⟨⟨hmn, ⟨hmidx, hmidy⟩, hbx.1, hby.1⟩,
      ⟨⟨hmidx, hmn.2⟩, ⟨hmx.1, hmidy⟩, hbx.2, hby.1⟩,
      ⟨⟨hmn.1, hmidy⟩, ⟨hmidx, hmx.2⟩, hbx.1, hby.2⟩,
      ⟨⟨hmidx, hmidy⟩, hmx, hbx.2, hby.2⟩⟩, ?_, ?_⟩
  · intro q hq
    rw [memBox_val q b hq hmn hmx,
      memBox_val q ⟨b.min, b.getCenter⟩ hq hmn ⟨hmidx, hmidy⟩,
      memBox_val q ⟨⟨b.getCenter.x, b.min.y⟩, ⟨b.max.x, b.getCenter.y⟩⟩ hq
        ⟨hmidx, hmn.2⟩ ⟨hmx.1, hmidy⟩,
      memBox_val q ⟨⟨b.min.x, b.getCenter.y⟩, ⟨b.getCenter.x, b.max.y⟩⟩ hq
        ⟨hmn.1, hmidy⟩ ⟨hmidx, hmx.2⟩,
      memBox_val q ⟨b.getCenter, b.max⟩ hq ⟨hmidx, hmidy⟩ hmx]
    constructor
    · rintro ⟨h1, h2, h3, h4⟩
      rcases le_or_lt q.x.val b.getCenter.x.val with hx | hx <;>
        rcases le_or_lt q.y.val b.getCenter.y.val with hy | hy
      · exact Or.inl ⟨h1, hx, h3, hy⟩
      · exact Or.inr (Or.inr (Or.inl ⟨h1, hx, le_of_lt hy, h4⟩))
      · exact Or.inr (Or.inl ⟨le_of_lt hx, h2, h3, hy⟩)
      · exact Or.inr (Or.inr (Or.inr ⟨le_of_lt hx, h2, le_of_lt hy, h4⟩))
    · rintro (⟨h1, h2, h3, h4⟩ | ⟨h1, h2, h3, h4⟩ | ⟨h1, h2, h3, h4⟩ |
        ⟨h1, h2, h3, h4⟩) <;>
      exact ⟨by linarith, by linarith, by linarith, by linarith⟩
  · intro q hq
    rw [memInterior_val q ⟨b.min, b.getCenter⟩ hq hmn ⟨hmidx, hmidy⟩,
      memInterior_val q ⟨⟨b.getCenter.x, b.min.y⟩, ⟨b.max.x, b.getCenter.y⟩⟩ hq
        ⟨hmidx, hmn.2⟩ ⟨hmx.1, hmidy⟩,
      memInterior_val q ⟨⟨b.min.x, b.getCenter.y⟩, ⟨b.getCenter.x, b.max.y⟩⟩ hq
        ⟨hmn.1, hmidy⟩ ⟨hmidx, hmx.2⟩,
      memInterior_val q ⟨b.getCenter, b.max⟩ hq ⟨hmidx, hmidy⟩ hmx]
    refine ⟨?_, ?_, ?_, ?_, ?_, ?_⟩ <;> rintro ⟨⟨a1, a2, a3, a4⟩, b1, b2, b3, b4⟩ <;>
      linarith

namespace QuadTree

/-- Well-formedness invariant maintained by subdivision and balancing: every
node's level is bounded by `maxDepth` (strictly below it for split nodes),
bounds are valid rectangles, and the four children of a split node carry
exactly the data produced by `createChildNodes`. -/
inductive WF (m : ℕ) : QNode → Prop
  | leaf : ∀ d : NodeData, d.level ≤ m → d.bounds.valid → WF m (QNode.leaf d)
  | node : ∀ (d : NodeData) (c0 c1 c2 c3 : QNode), d.level < m → d.bounds.valid →
      (QNode.data c0, QNode.data c1, QNode.data c2, QNode.data c3) =
        createChildNodes d →
      WF m c0 → WF m c1 → WF m c2 → WF m c3 → WF m (QNode.node d c0 c1 c2 c3)

theorem childData_level (d : NodeData) :
    (createChildNodes d).1.level = d.level + 1 ∧
    (createChildNodes d).2.1.level = d.level + 1 ∧
    (createChildNodes d).2.2.1.level = d.level + 1 ∧
    (createChildNodes d).2.2.2.level = d.level + 1 := ⟨rfl, rfl, rfl, rfl⟩

theorem childData_valid (d : NodeData) (hv : d.bounds.valid) :
    (createChildNodes d).1.bounds.valid ∧ (createChildNodes d).2.1.bounds.valid ∧
    (createChildNodes d).2.2.1.bounds.valid ∧
    (createChildNodes d).2.2.2.bounds.valid :=
  (quadrants_geometry d.bounds hv).1

theorem insertPositionRecursive_data (m : ℕ) (p : Vec2) (fuel : ℕ)
    (d : NodeData) : QNode.data (insertPositionRecursive m p fuel d) = d := by
  cases fuel with
  | zero => rfl
  | succ n =>
      by_cases h : shouldSplit m p d
      · rw [insertPositionRecursive_succ_pos h]; rfl
      · rw [insertPositionRecursive_succ_neg h]; rfl

theorem insertPositionRecursive_WF (m : ℕ) (p : Vec2) :
    ∀ (fuel : ℕ) (d : NodeData), d.level ≤ m → d.bounds.valid →
      WF m (insertPositionRecursive m p fuel d) := by
  intro fuel
  induction fuel with
  | zero => intro d h1 h2; exact WF.leaf d h1 h2
  | succ n ih =>
      intro d h1 h2
      by_cases h : shouldSplit m p d
      · rw [insertPositionRecursive_succ_pos h]
        have hlev : d.level < m := h.2
        have hv := childData_valid d h2
        have hl := childData_level d
        refine WF.node d _ _ _ _ hlev h2 ?_ ?_ ?_ ?_ ?_
        · simp only [insertPositionRecursive_data]
        · exact ih (createChildNodes d).1
            (by rw [(childData_level d).1]; omega) hv.1
        · exact ih (createChildNodes d).2.1
            (by rw [(childData_level d).2.1]; omega) hv.2.1
        · exact ih (createChildNodes d).2.2.1
            (by rw [(childData_level d).2.2.1]; omega) hv.2.2.1
        · exact ih (createChildNodes d).2.2.2
            (by rw [(childData_level d).2.2.2]; omega) hv.2.2.2
      · rw [insertPositionRecursive_succ_neg h]; exact WF.leaf d h1 h2

theorem splitLeaves_data (m : ℕ) (ls : List NodeData) (t : QNode) :
    QNode.data (splitLeaves m ls t) = QNode.data t := by
  cases t with
  | leaf d =>
      show QNode.data (if needsSplit m ls d then _ else _) = _
      by_cases h : needsSplit m ls d
      · rw [if_pos h]; rfl
      · rw [if_neg h]
  | node d c0 c1 c2 c3 => rfl

theorem splitLeaves_WF (m : ℕ) (ls : List NodeData) (t : QNode) (h : WF m t) :
    WF m (splitLeaves m ls t) := by
  induction h with
  | leaf d h1 h2 =>
      show WF m (if needsSplit m ls d then _ else _)
      by_cases h : needsSplit m ls d
      · rw [if_pos h]
        have hv := childData_valid d h2
        have hl := childData_level d
        have hlev : d.level < m := h.1
        refine WF.node d _ _ _ _ hlev h2 rfl ?_ ?_ ?_ ?_
        · exact WF.leaf (createChildNodes d).1
            (by rw [(childData_level d).1]; omega) hv.1
        · exact WF.leaf (createChildNodes d).2.1
            (by rw [(childData_level d).2.1]; omega) hv.2.1
        · exact WF.leaf (createChildNodes d).2.2.1
            (by rw [(childData_level d).2.2.1]; omega) hv.2.2.1
        · exact WF.leaf (createChildNodes d).2.2.2
            (by rw [(childData_level d).2.2.2]; omega) hv.2.2.2
      · rw [if_neg h]; exact WF.leaf d h1 h2
  | node d c0 c1 c2 c3 hlev hv hdata hw0 hw1 hw2 hw3 ih0 ih1 ih2 ih3 =>
      refine WF.node d _ _ _ _ hlev hv ?_ ih0 ih1 ih2 ih3
      rw [splitLeaves_data, splitLeaves_data, splitLeaves_data, splitLeaves_data]
      exact hdata

theorem getChildren_length_pos (t : QNode) :
    0 < (getChildrenRecursive t).length := by
  induction t with
  | leaf d => simp [getChildrenRecursive]
  | node d c0 c1 c2 c3 ih0 ih1 ih2 ih3 =>
      simp only [getChildrenRecursive, List.length_append]
      omega

theorem leaves_props (m : ℕ) (t : QNode) (h : WF m t) :
    ∀ d ∈ getChildrenRecursive t, d.level ≤ m ∧ d.bounds.valid := by
  induction h with
  | leaf d h1 h2 =>
      intro e he
      simp only [getChildrenRecursive, List.mem_singleton] at he
      subst he; exact ⟨h1, h2⟩
  | node d c0 c1 c2 c3 hlev hv hdata hw0 hw1 hw2 hw3 ih0 ih1 ih2 ih3 =>
      intro e he
      simp only [getChildrenRecursive, List.mem_append] at he
      rcases he with ((h | h) | h) | h
      · exact ih0 e h
      · exact ih1 e h
      · exact ih2 e h
      · exact ih3 e h

theorem getChildren_length_le (m : ℕ) (t : QNode) (h : WF m t) :
    (getChildrenRecursive t).length ≤ 4 ^ (m - (QNode.data t).level) := by
  induction h with
  | leaf d h1 h2 =>
      show 1 ≤ 4 ^ (m - d.level)
      exact Nat.one_le_pow _ _ (by norm_num)
  | node d c0 c1 c2 c3 hlev hv hdata hw0 hw1 hw2 hw3 ih0 ih1 ih2 ih3 =>
      show (getChildrenRecursive c0 ++ getChildrenRecursive c1 ++
        getChildrenRecursive c2 ++ getChildrenRecursive c3).length ≤
          4 ^ (m - d.level)
      have h0 : QNode.data c0 = (createChildNodes d).1 :=
        congrArg Prod.fst hdata
      have h1 : QNode.data c1 = (createChildNodes d).2.1 :=
        congrArg (fun x => x.2.1) hdata
      have h2 : QNode.data c2 = (createChildNodes d).2.2.1 :=
        congrArg (fun x => x.2.2.1) hdata
      have h3 : QNode.data c3 = (createChildNodes d).2.2.2 :=
        congrArg (fun x => x.2.2.2) hdata
      have hl := childData_level d
      rw [h0, hl.1] at ih0
      rw [h1, hl.2.1] at ih1
      rw [h2, hl.2.2.1] at ih2
      rw [h3, hl.2.2.2] at ih3
      have hpow : 4 ^ (m - d.level) = 4 * 4 ^ (m - (d.level + 1)) := by
        rw [← pow_succ']
        congr 1
        omega
      simp only [List.length_append]
      omega

theorem splitLeaves_length_ge (m : ℕ) (ls : List NodeData) (t : QNode) :
    (getChildrenRecursive t).length ≤
      (getChildrenRecursive (splitLeaves m ls t)).length := by
  induction t with
  | leaf d =>
      show _ ≤ (getChildrenRecursive (if needsSplit m ls d then _ else _)).length
      by_cases h : needsSplit m ls d
      · rw [if_pos h]
        simp [getChildrenRecursive]
      · rw [if_neg h]
  | node d c0 c1 c2 c3 ih0 ih1 ih2 ih3 =>
      show (getChildrenRecursive c0 ++ getChildrenRecursive c1 ++
          getChildrenRecursive c2 ++ getChildrenRecursive c3).length ≤
        (getChildrenRecursive (splitLeaves m ls c0) ++
          getChildrenRecursive (splitLeaves m ls c1) ++
          getChildrenRecursive (splitLeaves m ls c2) ++
          getChildrenRecursive (splitLeaves m ls c3)).length
      simp only [List.length_append]
      omega

theorem splitLeaves_length_gain (m : ℕ) (ls : List NodeData) (t : QNode)
    (d0 : NodeData) (hmem : d0 ∈ getChildrenRecursive t)
    (hns : needsSplit m ls d0) :
    (getChildrenRecursive t).length + 3 ≤
      (getChildrenRecursive (splitLeaves m ls t)).length := by
  induction t with
  | leaf d =>
      simp only [getChildrenRecursive, List.mem_singleton] at hmem
      subst hmem
      show _ + 3 ≤ (getChildrenRecursive (if needsSplit m ls d0 then _ else _)).length
      rw [if_pos hns]
      simp [getChildrenRecursive]
  | node d c0 c1 c2 c3 ih0 ih1 ih2 ih3 =>
      have g0 := splitLeaves_length_ge m ls c0
      have g1 := splitLeaves_length_ge m ls c1
      have g2 := splitLeaves_length_ge m ls c2
      have g3 := splitLeaves_length_ge m ls c3
      show (getChildrenRecursive c0 ++ getChildrenRecursive c1 ++
          getChildrenRecursive c2 ++ getChildrenRecursive c3).length + 3 ≤
        (getChildrenRecursive (splitLeaves m ls c0) ++
          getChildrenRecursive (splitLeaves m ls c1) ++
          getChildrenRecursive (splitLeaves m ls c2) ++
          getChildrenRecursive (splitLeaves m ls c3)).length
      simp only [getChildrenRecursive, List.mem_append] at hmem
      simp only [List.length_append]
      rcases hmem with ((h | h) | h) | h
      · have := ih0 h; omega
      · have := ih1 h; omega
      · have := ih2 h; omega
      · have := ih3 h; omega

theorem balance_succ (m fuel : ℕ) (t : QNode) :
    balance m (fuel + 1) t =
      if ∃ d ∈ getChildrenRecursive t, needsSplit m (getChildrenRecursive t) d
      then balance m fuel (splitLeaves m (getChildrenRecursive t) t)
      else t := rfl

theorem balance_WF (m fuel : ℕ) (t : QNode) (h : WF m t) :
    WF m (balance m fuel t) := by
  induction fuel generalizing t with
  | zero => exact h
  | succ n ih =>
      rw [balance_succ]
      by_cases hc : ∃ d ∈ getChildrenRecursive t,
          needsSplit m (getChildrenRecursive t) d
      · rw [if_pos hc]; exact ih _ (splitLeaves_WF m _ t h)
      · rw [if_neg hc]; exact h

theorem balance_data (m fuel : ℕ) (t : QNode) :
    QNode.data (balance m fuel t) = QNode.data t := by
  induction fuel generalizing t with
  | zero => rfl
  | succ n ih =>
      rw [balance_succ]
      by_cases hc : ∃ d ∈ getChildrenRecursive t,
          needsSplit m (getChildrenRecursive t) d
      · rw [if_pos hc, ih, splitLeaves_data]
      · rw [if_neg hc]

/-- With fuel `4 ^ maxDepth` starting from a well-formed tree with root
level 0, the balance loop genuinely reaches its fixed point: the returned
leaf set admits no further split. -/
theorem balance_no_needsSplit (m : ℕ) :
    ∀ (fuel : ℕ) (t : QNode), WF m t →
      4 ^ (m - (QNode.data t).level) <
        (getChildrenRecursive t).length + 3 * fuel →
      ¬ ∃ d ∈ getChildrenRecursive (balance m fuel t),
          needsSplit m (getChildrenRecursive (balance m fuel t)) d := by
  intro fuel
  induction fuel with
  | zero =>
      intro t hWF hlt
      have := getChildren_length_le m t hWF
      omega
  | succ n ih =>
      intro t hWF hlt
      rw [balance_succ]
      by_cases h : ∃ d ∈ getChildrenRecursive t,
          needsSplit m (getChildrenRecursive t) d
      · rw [if_pos h]
        obtain ⟨d0, hd0, hns⟩ := h
        have hgain := splitLeaves_length_gain m (getChildrenRecursive t) t d0 hd0 hns
        apply ih _ (splitLeaves_WF m _ t hWF)
        rw [splitLeaves_data]
        omega
      · rw [if_neg h]; exact h

theorem Frac.eqv_symm {a b : Frac} (h : a.eqv b) : b.eqv a := h.symm

theorem areEdgeNeighbors_symm {a b : Box2} (h : areEdgeNeighbors a b) :
    areEdgeNeighbors b a := by
  rcases h with ⟨hor, h1, h2⟩ | ⟨hor, h1, h2⟩
  · refine Or.inl ⟨?_, h2, h1⟩
    rcases hor with h | h
    · exact Or.inr h.symm
    · exact Or.inl h.symm
  · refine Or.inr ⟨?_, h2, h1⟩
    rcases hor with h | h
    · exact Or.inr h.symm
    · exact Or.inl h.symm

theorem balanced_of_fixedPoint (m : ℕ) (t : QNode) (hWF : WF m t)
    (hfix : ¬ ∃ d ∈ getChildrenRecursive t,
        needsSplit m (getChildrenRecursive t) d) :
    ∀ a ∈ getChildrenRecursive t, ∀ b ∈ getChildrenRecursive t,
      areEdgeNeighbors a.bounds b.bounds →
      ((a.level : ℤ) - (b.level : ℤ)).natAbs ≤ 1 := by
  intro a ha b hb hadj
  by_contra hgt
  have hla := (leaves_props m t hWF a ha).1
  have hlb := (leaves_props m t hWF b hb).1
  rcases lt_or_le a.level b.level with hc | hc
  · exact hfix ⟨a, ha, by omega, b, hb, hadj, by omega, hc⟩
  · have hc2 : b.level < a.level := by omega
    exact hfix ⟨b, hb, by omega, a, ha, areEdgeNeighbors_symm hadj, by omega, hc2⟩

end QuadTree

open QuadTree in
/-- C1.  After `insertPosition` (subdivision followed by the balance pass run
to its fixed point) on a quadtree over valid bounds, every pair of
edge-adjacent leaves differs in level by at most 1. -/
theorem quadtree_balanced (bounds : Box2) (m : ℕ) (p : Vec2)
    (hv : bounds.valid) :
    ∀ a ∈ getChildrenRecursive (insertPosition bounds m p),
      ∀ b ∈ getChildrenRecursive (insertPosition bounds m p),
        areEdgeNeighbors a.bounds b.bounds →
        ((a.level : ℤ) - (b.level : ℤ)).natAbs ≤ 1 := by
  have hWF0 : WF m (insertPositionRecursive m p (m + 1) (mkNodeData bounds 0)) :=
    insertPositionRecursive_WF m p (m + 1) (mkNodeData bounds 0)
      (Nat.zero_le m) hv
  have hWF : WF m (insertPosition bounds m p) :=
    balance_WF m (4 ^ m) _ hWF0
  apply balanced_of_fixedPoint m _ hWF
  have hlen := getChildren_length_pos
    (insertPositionRecursive m p (m + 1) (mkNodeData bounds 0))
  have hpos : 0 < 4 ^ m := Nat.pos_pow_of_pos m (by norm_num)
  apply balance_no_needsSplit m (4 ^ m) _ hWF0
  rw [insertPositionRecursive_data]
  show 4 ^ (m - 0) < _
  rw [Nat.sub_zero]
  omega

open QuadTree in
/-- Witness for C1 on the square `(0,0) – (4,4)` with `maxDepth = 2` and the
viewpoint at `(1,1)`. -/
theorem quadtree_balanced_witness :
    (⟨⟨⟨0, 1⟩, ⟨0, 1⟩⟩, ⟨⟨4, 1⟩, ⟨4, 1⟩⟩⟩ : Box2).valid ∧
    (∀ a ∈ getChildrenRecursive
        (insertPosition ⟨⟨⟨0, 1⟩, ⟨0, 1⟩⟩, ⟨⟨4, 1⟩, ⟨4, 1⟩⟩⟩ 2 ⟨⟨1, 1⟩, ⟨1, 1⟩⟩),
      ∀ b ∈ getChildrenRecursive
        (insertPosition ⟨⟨⟨0, 1⟩, ⟨0, 1⟩⟩, ⟨⟨4, 1⟩, ⟨4, 1⟩⟩⟩ 2 ⟨⟨1, 1⟩, ⟨1, 1⟩⟩),
        areEdgeNeighbors a.bounds b.bounds →
        ((a.level : ℤ) - (b.level : ℤ)).natAbs ≤ 1) :=
  ⟨by decide,
    quadtree_balanced ⟨⟨⟨0, 1⟩, ⟨0, 1⟩⟩, ⟨⟨4, 1⟩, ⟨4, 1⟩⟩⟩ 2 ⟨⟨1, 1⟩, ⟨1, 1⟩⟩
      (by decide)⟩

namespace QuadTree

theorem WF_allNodes (m : ℕ) (t : QNode) (h : WF m t) :
    ∀ s ∈ allNodeList t, (QNode.data s).level ≤ m ∧
      (QNode.data s).bounds.valid ∧
      (∀ (d : NodeData) (c0 c1 c2 c3 : QNode), s = QNode.node d c0 c1 c2 c3 →
        (QNode.data c0, QNode.data c1, QNode.data c2, QNode.data c3) =
          createChildNodes d) := by
  induction h with
  | leaf d h1 h2 =>
      intro s hs
      simp only [allNodeList, List.mem_singleton] at hs
      subst hs
      refine ⟨h1, h2, ?_⟩
      intro d' c0' c1' c2' c3' heq
      exact absurd heq (by simp)
  | node d c0 c1 c2 c3 hlev hv hdata hw0 hw1 hw2 hw3 ih0 ih1 ih2 ih3 =>
      intro s hs
      simp only [allNodeList, List.mem_cons, List.mem_append] at hs
      rcases hs with hs | ((hs | hs) | hs) | hs
      · subst hs
        refine ⟨Nat.le_of_lt hlev, hv, ?_⟩
        intro d' c0' c1' c2' c3' heq
        injection heq with e0 e1 e2 e3 e4
        subst e0; subst e1; subst e2; subst e3; subst e4
        exact hdata
      · exact ih0 s hs
      · exact ih1 s hs
      · exact ih2 s hs
      · exact ih3 s hs

end QuadTree

open QuadTree in
/-- C5.  Every node of the tree produced by `insertPosition` has level at
most `maxDepth`; every non-leaf node has exactly four children (the `node`
constructor of the embedding, mirroring `createChildNodes` which always
builds 4) whose data is exactly `createChildNodes` of the parent: their
bounds cover the parent rectangle exactly, have pairwise disjoint
interiors, and each child's center is the exact midpoint (`getCenter`) of
its own quadrant. -/
theorem quadtree_partition (bounds : Box2) (m : ℕ) (p : Vec2)
    (hv : bounds.valid) :
    ∀ s ∈ allNodeList (insertPosition bounds m p),
      (QNode.data s).level ≤ m ∧
      (∀ (d : NodeData) (c0 c1 c2 c3 : QNode), s = QNode.node d c0 c1 c2 c3 →
        ((QNode.data c0, QNode.data c1, QNode.data c2, QNode.data c3) =
          createChildNodes d) ∧
        (∀ q : Vec2, q.posDen →
          (memBox q d.bounds ↔
            memBox q (QNode.data c0).bounds ∨ memBox q (QNode.data c1).bounds ∨
            memBox q (QNode.data c2).bounds ∨ memBox q (QNode.data c3).bounds)) ∧
        (∀ q : Vec2, q.posDen →
          ¬ (memInterior q (QNode.data c0).bounds ∧
              memInterior q (QNode.data c1).bounds) ∧
          ¬ (memInterior q (QNode.data c0).bounds ∧
              memInterior q (QNode.data c2).bounds) ∧
          ¬ (memInterior q (QNode.data c0).bounds ∧
              memInterior q (QNode.data c3).bounds) ∧
          ¬ (memInterior q (QNode.data c1).bounds ∧
              memInterior q (QNode.data c2).bounds) ∧
          ¬ (memInterior q (QNode.data c1).bounds ∧
              memInterior q (QNode.data c3).bounds) ∧
          ¬ (memInterior q (QNode.data c2).bounds ∧
              memInterior q (QNode.data c3).bounds)) ∧
        ((QNode.data c0).center = (QNode.data c0).bounds.getCenter ∧
          (QNode.data c1).center = (QNode.data c1).bounds.getCenter ∧
          (QNode.data c2).center = (QNode.data c2).bounds.getCenter ∧
          (QNode.data c3).center = (QNode.data c3).bounds.getCenter)) := by
  have hWF0 : WF m (insertPositionRecursive m p (m + 1) (mkNodeData bounds 0)) :=
    insertPositionRecursive_WF m p (m + 1) (mkNodeData bounds 0)
      (Nat.zero_le m) hv
  have hWF : WF m (insertPosition bounds m p) := balance_WF m (4 ^ m) _ hWF0
  intro s hs
  obtain ⟨hlev, hval, hchild⟩ := WF_allNodes m _ hWF s hs
  refine ⟨hlev, ?_⟩
  intro d c0 c1 c2 c3 heq
  have hdata := hchild d c0 c1 c2 c3 heq
  subst heq
  have hgeo := quadrants_geometry d.bounds hval
  have h0 : QNode.data c0 = (createChildNodes d).1 := congrArg Prod.fst hdata
  have h1 : QNode.data c1 = (createChildNodes d).2.1 :=
    congrArg (fun x => x.2.1) hdata
  have h2 : QNode.data c2 = (createChildNodes d).2.2.1 :=
    congrArg (fun x => x.2.2.1) hdata
  have h3 : QNode.data c3 = (createChildNodes d).2.2.2 :=
    congrArg (fun x => x.2.2.2) hdata
  refine ⟨hdata, ?_, ?_, ?_⟩
  · intro q hq
    rw [h0, h1, h2, h3]
    exact hgeo.2.1 q hq
  · intro q hq
    rw [h0, h1, h2, h3]
    exact hgeo.2.2 q hq
  · rw [h0, h1, h2, h3]
    exact ⟨rfl, rfl, rfl, rfl⟩

open QuadTree in
/-- Witness for C5 on the square `(0,0) – (4,4)` with `maxDepth = 1` and the
viewpoint at `(1,1)`. -/
theorem quadtree_partition_witness :
    (⟨⟨⟨0, 1⟩, ⟨0, 1⟩⟩, ⟨⟨4, 1⟩, ⟨4, 1⟩⟩⟩ : Box2).valid ∧
    (∀ s ∈ allNodeList
        (insertPosition ⟨⟨⟨0, 1⟩, ⟨0, 1⟩⟩, ⟨⟨4, 1⟩, ⟨4, 1⟩⟩⟩ 1 ⟨⟨1, 1⟩, ⟨1, 1⟩⟩),
      (QNode.data s).level ≤ 1) :=
  ⟨by decide,
    fun s hs =>
      (quadtree_partition ⟨⟨⟨0, 1⟩, ⟨0, 1⟩⟩, ⟨⟨4, 1⟩, ⟨4, 1⟩⟩⟩ 1 ⟨⟨1, 1⟩, ⟨1, 1⟩⟩
        (by decide) s hs).1⟩
